import Mathlib

/-!
Verification of the Goban (Go board) engine in `giles/games/goban.py`.

The Python class `Goban` is shallowly embedded as a Lean structure; its
in-place mutations become explicit state passing.  The recursive liberty
search `recurse_captures` mutates a visitation table in place and can
return `None`, `[]` (liberty found) or a non-empty member list; it is
embedded with the table threaded through, a fuel parameter standing in for
the unbounded Python call stack, and `Option (List (Int × Int))` for the
`None`/list distinction.  Python exceptions that escape the engine
(`UnboundLocalError` / `TypeError` in `go_find_captures`) are embedded as
the `none` result of `go_find_captures` and the `crashed` play outcome.
-/

/-- The two stone colors, `WHITE = "white"` and `BLACK = "black"`. -/
inductive Color where
  | white : Color
  | black : Color
deriving DecidableEq, Repr

/-- `MIN_SIZE = 3` in goban.py. -/
def MIN_SIZE : Int := 3

/-- `MAX_SIZE = 26` in goban.py. -/
def MAX_SIZE : Int := 26

/-- `SQUARE_DELTAS = ((-1, 0), (1, 0), (0, -1), (0, 1))` in goban.py. -/
def SQUARE_DELTAS : List (Int × Int) := [(-1, 0), (1, 0), (0, -1), (0, 1)]

/-- A board cell: `None` (empty) or a color, as stored in `self.board`. -/
abbrev Cell := Option Color

/-- The board grid: a list of rows, each a list of cells, exactly as the
Python lists-of-lists.  (The printable rendering kept alongside it in the
Python class is pure formatting and is not modelled.) -/
abbrev Grid := List (List Cell)

/-- A visitation table: `None`/`True` per cell in Python, a `Bool` here. -/
abbrev Table := List (List Bool)

/-- The `Goban` object state: dimensions, grid, and last-move coordinates.
`printable_board` is derived display data and is not modelled. -/
structure Goban where
  width : Int
  height : Int
  board : Grid
  last_row : Option Int
  last_col : Option Int
deriving DecidableEq, Repr

/-- Read entry `(r, c)` of a list-of-lists, `none` when out of range.
All engine reads are guarded by `is_valid`, so the Python negative-index
wraparound is never exercised and `Int.toNat` is only evaluated on
non-negative coordinates. -/
def gridGet {α : Type} (b : List (List α)) (r c : Int) : Option α :=
  (b.get? r.toNat).bind (fun row => row.get? c.toNat)

/-- Write entry `(r, c)` of a list-of-lists (`self.board[r][c] = v`);
a no-op when the row is out of range. -/
def gridSet {α : Type} (b : List (List α)) (r c : Int) (v : α) : List (List α) :=
  match b.get? r.toNat with
  | none => b
  | some row => b.set r.toNat (row.set c.toNat v)

/-- `self.board[r][c]` as a cell value: empty when off the stored grid. -/
def cellGet (b : Grid) (r c : Int) : Cell :=
  (gridGet b r c).getD none

/-- `visit_table[r][c]` as a boolean: false when off the stored table. -/
def tableGet (t : Table) (r c : Int) : Bool :=
  (gridGet t r c).getD false

/-- A freshly built visitation table of the board's dimensions, as built
in `go_find_captures`: `height` rows of `width` unvisited entries. -/
def freshTable (g : Goban) : Table :=
  List.replicate g.height.toNat (List.replicate g.width.toNat false)

/-- Number of unvisited entries of one table row. -/
def countFalse : List Bool → Nat
  | [] => 0
  | b :: l => (if b then 0 else 1) + countFalse l

/-- Number of unvisited entries of a visitation table; the termination
measure of the recursive liberty search. -/
def freeCount (t : Table) : Nat :=
  (t.map countFalse).sum

/-- `is_valid(row, col)` from goban.py. -/
def is_valid (g : Goban) (row col : Int) : Bool :=
  decide (0 ≤ row ∧ row < g.height ∧ 0 ≤ col ∧ col < g.width)

/-- The state mutation performed by the placement step of `go_play`:
`self.board[row][col] = color; self.last_row = row; self.last_col = col`. -/
def place (g : Goban) (color : Color) (row col : Int) : Goban :=
  { g with
    board := gridSet g.board row col (some color)
    last_row := some row
    last_col := some col }

/-- The capture write-back loop of `go_play`:
`for capture_row, capture_col in capture_list: self.board[...] = None`. -/
def clearStones (b : Grid) (l : List (Int × Int)) : Grid :=
  l.foldl (fun b p => gridSet b p.1 p.2 none) b

/-- The `for delta in SQUARE_DELTAS` loop inside `recurse_captures`:
`rec` is the recursive call at one level deeper, applied to each
orthogonal neighbor in order.  Returns (liberty-found bail flag,
accumulated member extensions, table).  A `some []` from a neighbor is a
found liberty: the loop bails immediately (`return []` in Python),
keeping the table mutations made so far and discarding the members. -/
def recurse_over (rec : Int → Int → Table → Option (List (Int × Int)) × Table) :
    List (Int × Int) → Int → Int → Table → Bool × List (Int × Int) × Table
  | [], _, _, t => (false, [], t)
  | d :: ds, row, col, t =>
    match rec (row + d.1) (col + d.2) t with
    | (some [], t2) => (true, [], t2)
    | (some l, t2) =>
      match recurse_over rec ds row col t2 with
      | (true, _, t3) => (true, [], t3)
      | (false, acc, t3) => (false, l ++ acc, t3)
    | (none, t2) => recurse_over rec ds row col t2

/-- `recurse_captures(color, row, col, visit_table)` from goban.py, with
the mutated table threaded through and a fuel parameter standing in for
the unbounded Python call stack (the recursion depth is bounded by the
number of unvisited cells, so `FUEL` below always suffices).  `none` is
Python's `None`, `some []` is a found liberty, and `some (p :: l)` is a
group fragment in which no liberty was found. -/
def recurse_captures (g : Goban) (c : Color) :
    Nat → Int → Int → Table → Option (List (Int × Int)) × Table
  | 0, _, _, t => (none, t)
  | Nat.succ n, row, col, t =>
    if is_valid g row col = false then (none, t)
    else if tableGet t row col = true then (none, t)
    else if cellGet g.board row col = none then (some [], t)
    else if cellGet g.board row col ≠ some c then (none, t)
    else
      match recurse_over (recurse_captures g c n) SQUARE_DELTAS row col
          (gridSet t row col true) with
      | (true, _, t2) => (some [], t2)
      | (false, acc, t2) => (some ((row, col) :: acc), t2)

/-- The fuel handed to each root call of `recurse_captures`; one more
than the number of cells, which bounds the recursion depth. -/
def FUEL (g : Goban) : Nat :=
  g.height.toNat * g.width.toNat + 1

/-- The neighbor scan at the top of `go_find_captures`: collects
`opponent_piece_list`, the `empty_space_adjacent` flag, and the last
value assigned to `opponent_color` (none when never assigned). -/
def scanNeighbors (g : Goban) (color : Color) (row col : Int) :
    List (Int × Int) × Bool × Option Color :=
  SQUARE_DELTAS.foldl
    (fun acc d =>
      let nr := row + d.1
      let nc := col + d.2
      if is_valid g nr nc then
        match cellGet g.board nr nc with
        | some c2 =>
          if c2 ≠ color then (acc.1 ++ [(nr, nc)], acc.2.1, some c2) else acc
        | none => (acc.1, true, acc.2.2)
      else acc)
    ([], false, none)

/-- The `for opponent_piece in opponent_piece_list` loop of
`go_find_captures`: each root gets a fresh visitation table and its
member list is appended to `capture_list`; the table of the last root is
what the suicide check later reuses.  `none` models the `TypeError`
Python would raise on `capture_list.extend(None)`. -/
def runRoots (g : Goban) (oc : Color) :
    List (Int × Int) → List (Int × Int) → Table → Option (List (Int × Int) × Table)
  | [], acc, t => some (acc, t)
  | p :: ps, acc, _ =>
    match recurse_captures g oc (FUEL g) p.1 p.2 (freshTable g) with
    | (none, _) => none
    | (some l, t2) => runRoots g oc ps (acc ++ l) t2

/-- `go_find_captures(row, col)` from goban.py.  The result is `none`
when the Python code raises: either the `UnboundLocalError` on
`visit_table` in the suicide branch reached with no opponent neighbors,
or a `TypeError` from extending by `None` (unreachable in practice). -/
def go_find_captures (g : Goban) (row col : Int) :
    Option (Option Color × List (Int × Int)) :=
  match cellGet g.board row col with
  | none => some (none, [])
  | some color =>
    match scanNeighbors g color row col with
    | (oppList, emptyAdj, oppColorOpt) =>
      if oppList = [] ∧ emptyAdj = true then
        -- no opponent's pieces nearby and a liberty: no capture possible
        some (none, [])
      else
        match oppList, oppColorOpt with
        | [], _ =>
          -- empty loop leaves capture_list empty; the suicide branch then
          -- reads the never-assigned visit_table: UnboundLocalError
          none
        | _ :: _, none =>
          -- opponent_color never assigned: unreachable NameError
          none
        | opp1 :: opprest, some oc =>
          match runRoots g oc (opp1 :: opprest) [] (freshTable g) with
          | none => none
          | some (captureList, lastT) =>
            if captureList ≠ [] then some (some oc, captureList)
            else
              match recurse_captures g color (FUEL g) row col lastT with
              | (none, _) => none
              | (some l, _) =>
                if l ≠ [] then some (some color, l) else some (none, [])

/-- The visitation table `go_find_captures` hands to its suicide check,
when that check is reached: the table left over from the last opponent
root (exposed for analysis of the table-reuse behavior). -/
def suicideTableUsed (g : Goban) (row col : Int) : Option Table :=
  match cellGet g.board row col with
  | none => none
  | some color =>
    match scanNeighbors g color row col with
    | (oppList, emptyAdj, oppColorOpt) =>
      if oppList = [] ∧ emptyAdj = true then none
      else
        match oppList, oppColorOpt with
        | [], _ => none
        | _ :: _, none => none
        | opp1 :: opprest, some oc =>
          match runRoots g oc (opp1 :: opprest) [] (freshTable g) with
          | none => none
          | some (captureList, lastT) =>
            if captureList ≠ [] then none else some lastT

/-- The outcome of `go_play`: `None` (rejection), the accepted 3-tuple,
or a propagated Python exception. -/
inductive PlayOutcome where
  | rejected : PlayOutcome
  | accepted : Int × Int → Option Color → List (Int × Int) → PlayOutcome
  | crashed : PlayOutcome
deriving DecidableEq, Repr

/-- `go_play(color, row, col)` from goban.py, returning the outcome and
the state of the `Goban` afterwards (including the partially mutated
state left behind when the call raises). -/
def go_play (g : Goban) (color : Color) (row col : Int) : PlayOutcome × Goban :=
  if is_valid g row col = false then (PlayOutcome.rejected, g)
  else if cellGet g.board row col ≠ none then (PlayOutcome.rejected, g)
  else
    match go_find_captures (place g color row col) row col with
    | none => (PlayOutcome.crashed, place g color row col)
    | some (colorCaptured, captureList) =>
      match colorCaptured with
      | some _ =>
        (PlayOutcome.accepted (row, col) colorCaptured captureList,
         { place g color row col with
             board := clearStones (place g color row col).board captureList })
      | none =>
        (PlayOutcome.accepted (row, col) colorCaptured captureList,
         place g color row col)

/-- `init_board()` from goban.py: a fresh empty grid at the current size
(the printable-board refresh it also performs is not modelled). -/
def init_board (g : Goban) : Goban :=
  { g with board := List.replicate g.height.toNat (List.replicate g.width.toNat none) }

/-- `resize(width, height)` from goban.py. -/
def resize (g : Goban) (width height : Int) : Goban :=
  if width < MIN_SIZE ∨ width > MAX_SIZE ∨ height < MIN_SIZE ∨ height > MAX_SIZE then g
  else init_board { g with width := width, height := height }

/-- The cell translation of `invert()`: black and white swap, empty stays. -/
def invertCell (c : Cell) : Cell :=
  match c with
  | some Color.black => some Color.white
  | some Color.white => some Color.black
  | none => none

/-- `invert()` from goban.py: rebuilds the grid with all colors swapped. -/
def invert (g : Goban) : Goban :=
  { g with board := g.board.map (fun r => r.map invertCell) }

/-- `Goban()` construction: a 19×19 empty board, no last move. -/
def Goban.start : Goban :=
  { width := 19
    height := 19
    board := List.replicate 19 (List.replicate 19 none)
    last_row := none
    last_col := none }

/-! ### Well-formedness and group/liberty notions -/

/-- A list-of-lists is a well-formed `h × w` grid. -/
def GridWF {α : Type} (h w : Nat) (b : List (List α)) : Prop :=
  b.length = h ∧ ∀ row ∈ b, row.length = w

instance {α : Type} [DecidableEq α] (h w : Nat) (b : List (List α)) :
    Decidable (GridWF h w b) := by
  unfold GridWF; exact instDecidableAnd

/-- The board grid has the dimensions the `Goban` claims. -/
def WF (g : Goban) : Prop :=
  GridWF g.height.toNat g.width.toNat g.board

instance (g : Goban) : Decidable (WF g) := by
  unfold WF; infer_instance

/-- Cell `p` is marked visited in table `t` (coordinates non-negative, so
the table entry read through `Int.toNat` really is cell `p`). -/
def MarkedAt (t : Table) (p : Int × Int) : Prop :=
  0 ≤ p.1 ∧ 0 ≤ p.2 ∧ tableGet t p.1 p.2 = true

/-- Every visited mark of `t` sits on a valid, non-empty board cell. -/
def MarksOK (g : Goban) (t : Table) : Prop :=
  ∀ q : Int × Int, MarkedAt t q →
    is_valid g q.1 q.2 = true ∧ cellGet g.board q.1 q.2 ≠ none

/-- Orthogonal adjacency on the square grid. -/
def Adj (p q : Int × Int) : Prop :=
  ∃ d ∈ SQUARE_DELTAS, q = (p.1 + d.1, p.2 + d.2)

/-- One step of same-color connectivity: `q` is an on-board stone of
color `c` orthogonally adjacent to `p`. -/
def StepC (g : Goban) (c : Color) (p q : Int × Int) : Prop :=
  Adj p q ∧ is_valid g q.1 q.2 = true ∧ cellGet g.board q.1 q.2 = some c

/-- `q` belongs to the 4-connected color-`c` group grown from `p`. -/
def InGroup (g : Goban) (c : Color) (p q : Int × Int) : Prop :=
  Relation.ReflTransGen (StepC g c) p q

/-- `q` has an orthogonally adjacent empty on-board cell (a liberty). -/
def HasLib (g : Goban) (q : Int × Int) : Prop :=
  ∃ d ∈ SQUARE_DELTAS, is_valid g (q.1 + d.1) (q.2 + d.2) = true ∧
    cellGet g.board (q.1 + d.1) (q.2 + d.2) = none

/-- The color-`c` group containing `p` has at least one liberty. -/
def GroupHasLiberty (g : Goban) (c : Color) (p : Int × Int) : Prop :=
  ∃ q, InGroup g c p q ∧ HasLib g q

/-! ### List-level helper lemmas -/

theorem get?_some_lt {α : Type} :
    ∀ (l : List α) (n : Nat) (x : α), l.get? n = some x → n < l.length := by
  intro l
  induction l with
  | nil => intro n x h; simp at h
  | cons a l ih =>
    intro n x h
    cases n with
    | zero => simp
    | succ m => simpa using Nat.succ_lt_succ (ih m x (by simpa using h))

theorem get?_lt_some {α : Type} :
    ∀ (l : List α) (n : Nat), n < l.length → ∃ x, l.get? n = some x := by
  intro l
  induction l with
  | nil => intro n h; simp at h
  | cons a l ih =>
    intro n h
    cases n with
    | zero => exact ⟨a, rfl⟩
    | succ m => simpa using ih m (by simpa using h)

theorem get?_mem_of_some {α : Type} :
    ∀ (l : List α) (n : Nat) (x : α), l.get? n = some x → x ∈ l := by
  intro l
  induction l with
  | nil => intro n x h; simp at h
  | cons a l ih =>
    intro n x h
    cases n with
    | zero => simp at h; simp [h]
    | succ m => exact List.mem_cons_of_mem a (ih m x (by simpa using h))

theorem get?_set_self {α : Type} :
    ∀ (l : List α) (n : Nat) (x v : α), l.get? n = some x →
      (l.set n v).get? n = some v := by
  intro l
  induction l with
  | nil => intro n x v h; simp at h
  | cons a l ih =>
    intro n x v h
    cases n with
    | zero => simp
    | succ m => simpa using ih m x v (by simpa using h)

theorem get?_set_other {α : Type} :
    ∀ (l : List α) (m n : Nat) (v : α), m ≠ n → (l.set m v).get? n = l.get? n := by
  intro l
  induction l with
  | nil => intro m n v _; simp
  | cons a l ih =>
    intro m n v h
    cases m with
    | zero =>
      cases n with
      | zero => exact absurd rfl h
      | succ k => simp
    | succ j =>
      cases n with
      | zero => simp
      | succ k => simpa using ih j k v (by omega)

theorem mem_of_mem_set {α : Type} :
    ∀ (l : List α) (n : Nat) (v x : α), x ∈ l.set n v → x ∈ l ∨ x = v := by
  intro l
  induction l with
  | nil => intro n v x h; simp at h
  | cons a l ih =>
    intro n v x h
    cases n with
    | zero =>
      rcases List.mem_cons.1 (by simpa using h) with h1 | h1
      · exact Or.inr h1
      · exact Or.inl (List.mem_cons_of_mem a h1)
    | succ m =>
      rcases List.mem_cons.1 (by simpa using h) with h1 | h1
      · exact Or.inl (by simp [h1])
      · rcases ih m v x h1 with h2 | h2
        · exact Or.inl (List.mem_cons_of_mem a h2)
        · exact Or.inr h2

theorem get?_replicate_eq {α : Type} (x : α) :
    ∀ (n i : Nat), (List.replicate n x).get? i = if i < n then some x else none := by
  intro n
  induction n with
  | zero => intro i; simp
  | succ m ih =>
    intro i
    cases i with
    | zero => simp
    | succ j =>
      rw [List.replicate_succ]
      show (List.replicate m x).get? j = _
      rw [ih j]
      by_cases h : j < m
      · simp [h, Nat.succ_lt_succ_iff]
      · simp [h, Nat.succ_lt_succ_iff]

/-! ### Grid-level helper lemmas -/

theorem gridGet_some_of_lt {α : Type} {h w : Nat} {b : List (List α)}
    (hb : GridWF h w b) {r c : Int} (hr : r.toNat < h) (hc : c.toNat < w) :
    ∃ x, gridGet b r c = some x := by
  obtain ⟨hlen, hrows⟩ := hb
  obtain ⟨row, hrow⟩ := get?_lt_some b r.toNat (by omega)
  have hwrow : row.length = w := hrows row (get?_mem_of_some b r.toNat row hrow)
  obtain ⟨x, hx⟩ := get?_lt_some row c.toNat (by omega)
  refine ⟨x, ?_⟩
  unfold gridGet
  rw [hrow]
  exact hx

theorem gridGet_some_lt {α : Type} {h w : Nat} {b : List (List α)}
    (hb : GridWF h w b) {r c : Int} {x : α} (hx : gridGet b r c = some x) :
    r.toNat < h ∧ c.toNat < w := by
  obtain ⟨hlen, hrows⟩ := hb
  unfold gridGet at hx
  rcases hrow : b.get? r.toNat with _ | row
  · rw [hrow] at hx; simp at hx
  · rw [hrow] at hx
    replace hx : row.get? c.toNat = some x := hx
    have h1 := get?_some_lt b r.toNat row hrow
    have h2 := get?_some_lt row c.toNat x hx
    have h3 := hrows row (get?_mem_of_some b r.toNat row hrow)
    omega

theorem gridGet_set_self {α : Type} {b : List (List α)} {r c : Int} {x : α}
    (h : gridGet b r c = some x) (v : α) :
    gridGet (gridSet b r c v) r c = some v := by
  unfold gridGet at h
  rcases hrow : b.get? r.toNat with _ | row
  · rw [hrow] at h; simp at h
  · rw [hrow] at h
    replace h : row.get? c.toNat = some x := h
    show gridGet (gridSet b r c v) r c = some v
    unfold gridGet gridSet
    rw [hrow]
    show ((b.set r.toNat (row.set c.toNat v)).get? r.toNat).bind
      (fun row => row.get? c.toNat) = some v
    rw [get?_set_self b r.toNat row _ hrow]
    exact get?_set_self row c.toNat x v h

theorem gridGet_set_other {α : Type} (b : List (List α)) (r c r2 c2 : Int) (v : α)
    (h : r2.toNat ≠ r.toNat ∨ c2.toNat ≠ c.toNat) :
    gridGet (gridSet b r c v) r2 c2 = gridGet b r2 c2 := by
  unfold gridGet gridSet
  rcases hrow : b.get? r.toNat with _ | row
  · rfl
  · show ((b.set r.toNat (row.set c.toNat v)).get? r2.toNat).bind
      (fun row => row.get? c2.toNat) = (b.get? r2.toNat).bind (fun row => row.get? c2.toNat)
    by_cases hr : r2.toNat = r.toNat
    · have hc : c2.toNat ≠ c.toNat := by
        rcases h with h | h
        · exact absurd hr h
        · exact h
      rw [hr, get?_set_self b r.toNat row _ hrow, hrow]
      show (row.set c.toNat v).get? c2.toNat = row.get? c2.toNat
      exact get?_set_other row c.toNat c2.toNat v (fun he => hc (he ▸ rfl))
    · rw [get?_set_other b r.toNat r2.toNat _ (fun he => hr (he ▸ rfl))]

theorem gridSet_wf {α : Type} {h w : Nat} {b : List (List α)}
    (hb : GridWF h w b) (r c : Int) (v : α) : GridWF h w (gridSet b r c v) := by
  obtain ⟨hlen, hrows⟩ := hb
  unfold gridSet
  rcases hrow : b.get? r.toNat with _ | row
  · exact ⟨hlen, hrows⟩
  · refine ⟨by simpa using hlen, ?_⟩
    intro row2 hrow2
    rcases mem_of_mem_set b r.toNat _ row2 hrow2 with h2 | h2
    · exact hrows row2 h2
    · subst h2
      simpa using hrows row (get?_mem_of_some b r.toNat row hrow)

theorem gridGet_replicate {α : Type} (h w : Nat) (x : α) (r c : Int) :
    gridGet (List.replicate h (List.replicate w x)) r c =
      if r.toNat < h ∧ c.toNat < w then some x else none := by
  unfold gridGet
  rw [get?_replicate_eq]
  by_cases hr : r.toNat < h
  · simp only [hr, if_true]
    show (List.replicate w x).get? c.toNat = _
    rw [get?_replicate_eq]
    by_cases hc : c.toNat < w
    · simp [hr, hc]
    · simp [hr, hc]
  · simp [hr]

theorem freshTable_wf (g : Goban) :
    GridWF g.height.toNat g.width.toNat (freshTable g) := by
  constructor
  · simp [freshTable]
  · intro row hrow
    rw [List.eq_of_mem_replicate hrow]
    simp

theorem tableGet_fresh (g : Goban) (r c : Int) : tableGet (freshTable g) r c = false := by
  unfold tableGet freshTable
  rw [gridGet_replicate]
  split
  · rfl
  · rfl

theorem markedAt_fresh (g : Goban) (q : Int × Int) : ¬ MarkedAt (freshTable g) q := by
  intro h
  have h2 := h.2.2
  rw [tableGet_fresh] at h2
  simp at h2

/-! ### Counting lemmas for the termination measure -/

theorem countFalse_set_true :
    ∀ (l : List Bool) (i : Nat), l.get? i = some false →
      countFalse (l.set i true) + 1 = countFalse l := by
  intro l
  induction l with
  | nil => intro i h; simp at h
  | cons a l ih =>
    intro i h
    cases i with
    | zero =>
      simp at h
      subst h
      show (if true then 0 else 1) + countFalse l + 1 =
        (if false then 0 else 1) + countFalse l
      rw [if_pos rfl, if_neg (by decide)]
      omega
    | succ j =>
      have h2 := ih j (by simpa using h)
      show countFalse (a :: l.set j true) + 1 = countFalse (a :: l)
      simp only [countFalse]
      omega

theorem sum_map_set {α : Type} (f : α → Nat) :
    ∀ (l : List α) (i : Nat) (x y : α), l.get? i = some x →
      ((l.set i y).map f).sum + f x = (l.map f).sum + f y := by
  intro l
  induction l with
  | nil => intro i x y h; simp at h
  | cons a l ih =>
    intro i x y h
    cases i with
    | zero =>
      simp at h
      subst h
      show ((y :: l).map f).sum + f a = ((a :: l).map f).sum + f y
      simp only [List.map_cons, List.sum_cons]
      omega
    | succ j =>
      have h2 := ih j x y (by simpa using h)
      show ((a :: l.set j y).map f).sum + f x = ((a :: l).map f).sum + f y
      simp only [List.map_cons, List.sum_cons]
      omega

theorem freeCount_set_true {t : Table} {r c : Int}
    (h : gridGet t r c = some false) :
    freeCount (gridSet t r c true) + 1 = freeCount t := by
  unfold gridGet at h
  rcases hrow : t.get? r.toNat with _ | row
  · rw [hrow] at h; simp at h
  · rw [hrow] at h
    replace h : row.get? c.toNat = some false := h
    unfold freeCount gridSet
    rw [hrow]
    show ((t.set r.toNat (row.set c.toNat true)).map countFalse).sum + 1 =
      (t.map countFalse).sum
    have h1 := sum_map_set countFalse t r.toNat row (row.set c.toNat true) hrow
    have h2 := countFalse_set_true row c.toNat h
    omega

theorem countFalse_le_length : ∀ (l : List Bool), countFalse l ≤ l.length := by
  intro l
  induction l with
  | nil => simp [countFalse]
  | cons a l ih =>
    simp only [countFalse, List.length_cons]
    split
    · omega
    · omega

theorem freeCount_le_aux (w : Nat) :
    ∀ (t : Table), (∀ row ∈ t, row.length = w) → freeCount t ≤ t.length * w := by
  intro t
  induction t with
  | nil => intro _; simp [freeCount]
  | cons row t ih =>
    intro hrows
    have h1 : freeCount t ≤ t.length * w :=
      ih (fun r hr => hrows r (List.mem_cons_of_mem row hr))
    have h2 : countFalse row ≤ w := by
      have h3 := countFalse_le_length row
      rw [hrows row (List.mem_cons_self row t)] at h3
      exact h3
    simp only [freeCount, List.map_cons, List.sum_cons] at h1 ⊢
    have h4 : (row :: t).length * w = w + t.length * w := by
      simp only [List.length_cons]
      ring
    omega

theorem freeCount_le {h w : Nat} {t : Table} (ht : GridWF h w t) :
    freeCount t ≤ h * w := by
  have h1 := freeCount_le_aux w t ht.2
  rw [ht.1] at h1
  exact h1

theorem countFalse_replicate : ∀ (n : Nat), countFalse (List.replicate n false) = n := by
  intro n
  induction n with
  | zero => simp [countFalse]
  | succ m ih =>
    rw [List.replicate_succ]
    show (if false then 0 else 1) + countFalse (List.replicate m false) = m + 1
    rw [ih, if_neg (by decide)]
    omega

theorem freeCount_fresh (g : Goban) :
    freeCount (freshTable g) = g.height.toNat * g.width.toNat := by
  unfold freeCount freshTable
  rw [List.map_replicate, countFalse_replicate]
  induction g.height.toNat with
  | zero => simp
  | succ n ih =>
    simp only [List.replicate_succ, List.sum_cons, ih]
    ring

/-! ### Validity, placement and clearing lemmas -/

theorem is_valid_iff (g : Goban) (r c : Int) :
    is_valid g r c = true ↔ (0 ≤ r ∧ r < g.height ∧ 0 ≤ c ∧ c < g.width) := by
  simp [is_valid]

theorem is_valid_toNat {g : Goban} {r c : Int} (h : is_valid g r c = true) :
    r.toNat < g.height.toNat ∧ c.toNat < g.width.toNat := by
  rw [is_valid_iff] at h
  omega

theorem is_valid_nonneg {g : Goban} {r c : Int} (h : is_valid g r c = true) :
    0 ≤ r ∧ 0 ≤ c := by
  rw [is_valid_iff] at h
  exact ⟨h.1, h.2.2.1⟩

theorem toNat_pair_ne {a b a2 b2 : Int} (ha : 0 ≤ a) (hb : 0 ≤ b)
    (ha2 : 0 ≤ a2) (hb2 : 0 ≤ b2) (h : (a, b) ≠ (a2, b2)) :
    a.toNat ≠ a2.toNat ∨ b.toNat ≠ b2.toNat := by
  by_contra hc
  push_neg at hc
  exact h (by rw [Prod.mk.injEq]; omega)

theorem place_wf {g : Goban} (hw : WF g) (color : Color) (row col : Int) :
    WF (place g color row col) :=
  gridSet_wf hw row col (some color)

theorem cellGet_place_self {g : Goban} (hw : WF g) {row col : Int}
    (h : is_valid g row col = true) (color : Color) :
    cellGet (place g color row col).board row col = some color := by
  obtain ⟨hr, hc⟩ := is_valid_toNat h
  obtain ⟨x, hx⟩ := gridGet_some_of_lt hw hr hc
  show (gridGet (gridSet g.board row col (some color)) row col).getD none = some color
  rw [gridGet_set_self hx]
  rfl

theorem cellGet_place_other (g : Goban) (color : Color) (row col r c : Int)
    (h : r.toNat ≠ row.toNat ∨ c.toNat ≠ col.toNat) :
    cellGet (place g color row col).board r c = cellGet g.board r c := by
  show (gridGet (gridSet g.board row col (some color)) r c).getD none = _
  rw [gridGet_set_other _ _ _ _ _ _ h]
  rfl

theorem gridGet_toNat_congr {α : Type} (b : List (List α)) {q1 q2 r c : Int}
    (h1 : q1.toNat = r.toNat) (h2 : q2.toNat = c.toNat) :
    gridGet b q1 q2 = gridGet b r c := by
  unfold gridGet
  rw [h1, h2]

theorem cellGet_gridSet_none_preserve {b : Grid} {q1 q2 : Int}
    (h : cellGet b q1 q2 = none) (r c : Int) :
    cellGet (gridSet b r c none) q1 q2 = none := by
  by_cases hne : q1.toNat ≠ r.toNat ∨ q2.toNat ≠ c.toNat
  · unfold cellGet
    rw [gridGet_set_other _ _ _ _ _ _ hne]
    exact h
  · push_neg at hne
    obtain ⟨h1, h2⟩ := hne
    unfold cellGet at h ⊢
    rw [gridGet_toNat_congr _ h1 h2] at h ⊢
    rcases hget : gridGet b r c with _ | y
    · unfold gridGet gridSet
      unfold gridGet at hget
      rcases hrow : b.get? r.toNat with _ | row
      · rw [hrow]
        rw [hrow] at hget
        rw [hget]
        rfl
      · rw [hrow] at hget
        replace hget : row.get? c.toNat = none := hget
        show (((b.set r.toNat (row.set c.toNat none)).get? r.toNat).bind
          (fun row => row.get? c.toNat)).getD none = none
        rw [get?_set_self b r.toNat row _ hrow]
        show ((row.set c.toNat (none : Cell)).get? c.toNat).getD none = none
        rcases hcell : (row.set c.toNat (none : Cell)).get? c.toNat with _ | z
        · rfl
        · exfalso
          have h3 := get?_some_lt _ _ _ hcell
          simp only [List.length_set] at h3
          obtain ⟨zz, hzz⟩ := get?_lt_some row c.toNat h3
          rw [hget] at hzz
          simp at hzz
    · rw [gridGet_set_self hget]
      rfl

theorem cellGet_clearStones_not_mem :
    ∀ (l : List (Int × Int)) (b : Grid) (q : Int × Int),
      (∀ p ∈ l, 0 ≤ p.1 ∧ 0 ≤ p.2) → 0 ≤ q.1 → 0 ≤ q.2 → q ∉ l →
      cellGet (clearStones b l) q.1 q.2 = cellGet b q.1 q.2 := by
  intro l
  induction l with
  | nil => intro b q _ _ _ _; rfl
  | cons p l ih =>
    intro b q hnn hq1 hq2 hmem
    have hne : q ≠ p := fun he => hmem (he ▸ List.mem_cons_self p l)
    have hp := hnn p (List.mem_cons_self p l)
    have step : cellGet (gridSet b p.1 p.2 none) q.1 q.2 = cellGet b q.1 q.2 := by
      unfold cellGet
      rw [gridGet_set_other _ _ _ _ _ _ (toNat_pair_ne hq1 hq2 hp.1 hp.2 hne)]
    calc cellGet (clearStones b (p :: l)) q.1 q.2
        = cellGet (clearStones (gridSet b p.1 p.2 none) l) q.1 q.2 := rfl
      _ = cellGet (gridSet b p.1 p.2 none) q.1 q.2 :=
          ih _ q (fun p2 hp2 => hnn p2 (List.mem_cons_of_mem p hp2)) hq1 hq2
            (fun hm => hmem (List.mem_cons_of_mem p hm))
      _ = cellGet b q.1 q.2 := step

theorem markedAt_set_iff {t : Table} {r c : Int} (hr : 0 ≤ r) (hc : 0 ≤ c)
    {x : Bool} (hin : gridGet t r c = some x) (q : Int × Int) :
    MarkedAt (gridSet t r c true) q ↔ q = (r, c) ∨ MarkedAt t q := by
  constructor
  · rintro ⟨hq1, hq2, hget⟩
    by_cases hne : q.1.toNat ≠ r.toNat ∨ q.2.toNat ≠ c.toNat
    · refine Or.inr ⟨hq1, hq2, ?_⟩
      unfold tableGet at hget
      rw [gridGet_set_other _ _ _ _ _ _ hne] at hget
      exact hget
    · push_neg at hne
      left
      have h2 : q.1 = r ∧ q.2 = c := by omega
      exact Prod.ext h2.1 h2.2
  · rintro (rfl | ⟨hq1, hq2, hget⟩)
    · refine ⟨hr, hc, ?_⟩
      unfold tableGet
      rw [gridGet_set_self hin]
      rfl
    · refine ⟨hq1, hq2, ?_⟩
      by_cases hne : q.1.toNat ≠ r.toNat ∨ q.2.toNat ≠ c.toNat
      · unfold tableGet
        rw [gridGet_set_other _ _ _ _ _ _ hne]
        exact hget
      · push_neg at hne
        unfold tableGet
        rw [gridGet_toNat_congr _ hne.1 hne.2, gridGet_set_self hin]
        rfl

/-! ### Invert lemmas -/

theorem get?_map {α β : Type} (f : α → β) :
    ∀ (l : List α) (n : Nat), (l.map f).get? n = (l.get? n).map f := by
  intro l
  induction l with
  | nil => intro n; simp
  | cons a l ih =>
    intro n
    cases n with
    | zero => rfl
    | succ m => exact ih m

theorem cellGet_invert (g : Goban) (r c : Int) :
    cellGet (invert g).board r c = invertCell (cellGet g.board r c) := by
  show (gridGet (g.board.map (fun row => row.map invertCell)) r c).getD none =
    invertCell ((gridGet g.board r c).getD none)
  unfold gridGet
  rw [get?_map]
  rcases hrow : g.board.get? r.toNat with _ | row
  · rfl
  · show ((row.map invertCell).get? c.toNat).getD none =
      invertCell ((row.get? c.toNat).getD none)
    rw [get?_map]
    rcases hcell : row.get? c.toNat with _ | y
    · rfl
    · rfl

theorem invertCell_invertCell (c : Cell) : invertCell (invertCell c) = c := by
  rcases c with _ | c
  · rfl
  · rcases c with _ | _
    · rfl
    · rfl

theorem map_invertCell_invol :
    ∀ (l : List Cell), (l.map invertCell).map invertCell = l := by
  intro l
  induction l with
  | nil => rfl
  | cons a l ih => simp only [List.map_cons, ih, invertCell_invertCell]

theorem grid_invert_invol :
    ∀ (b : Grid),
      ((b.map (fun row => row.map invertCell)).map (fun row => row.map invertCell)) = b := by
  intro b
  induction b with
  | nil => rfl
  | cons row b ih => simp only [List.map_cons, ih, map_invertCell_invol]

/-! ### Claim theorems: C1, C2, C4, C8, C9, C10 -/

/-- C1 (evaluation at the failing input): playing Black at (0, 1) and
(1, 0) on a fresh 19×19 board and then Black at the corner (0, 0) — a
valid placement whose neighbors are all off-board or the mover's own
color — makes `go_play` crash (the Python code raises `UnboundLocalError`
on `visit_table`) instead of returning a rejection or an accepted
3-tuple. -/
theorem C1_crash_on_all_own_color_neighbors :
    (go_play (go_play (go_play Goban.start Color.black 0 1).2 Color.black 1 0).2
      Color.black 0 0).1 = PlayOutcome.crashed := by decide

/-- C2: every play at an out-of-bounds coordinate or at an occupied cell
returns the rejection result and leaves the whole `Goban` state — every
cell, the dimensions, and the last-move coordinates — unchanged. -/
theorem C2_rejected_play_is_noop (g : Goban) (color : Color) (row col : Int)
    (h : is_valid g row col = false ∨ cellGet g.board row col ≠ none) :
    go_play g color row col = (PlayOutcome.rejected, g) := by
  unfold go_play
  by_cases hv : is_valid g row col = false
  · rw [if_pos hv]
  · rw [if_neg hv]
    rcases h with h | h
    · exact absurd h hv
    · rw [if_pos h]

/-- Witness for C2: an out-of-bounds play and an occupied-cell play on
concrete boards, both rejected with the state returned unchanged. -/
theorem C2_witness :
    go_play Goban.start Color.white 19 0 = (PlayOutcome.rejected, Goban.start) ∧
    go_play (go_play Goban.start Color.black 3 3).2 Color.white 3 3 =
      (PlayOutcome.rejected, (go_play Goban.start Color.black 3 3).2) :=
  ⟨C2_rejected_play_is_noop Goban.start Color.white 19 0 (Or.inl (by decide)),
   C2_rejected_play_is_noop (go_play Goban.start Color.black 3 3).2 Color.white 3 3
     (Or.inr (by decide))⟩

/-- C4: from the empty 19×19 board, White (1,1) then Black (0,1), (1,0),
(1,2) are all accepted without captures; the Black play at (2,1) reports
captured color White with captured stones [(1,1)]; afterwards (1,1) is
empty and the four Black stones are still on the board. -/
theorem C4_single_stone_capture :
    (go_play Goban.start Color.white 1 1).1 = PlayOutcome.accepted (1, 1) none [] ∧
    (go_play (go_play Goban.start Color.white 1 1).2 Color.black 0 1).1 =
      PlayOutcome.accepted (0, 1) none [] ∧
    (go_play (go_play (go_play Goban.start Color.white 1 1).2 Color.black 0 1).2
      Color.black 1 0).1 = PlayOutcome.accepted (1, 0) none [] ∧
    (go_play (go_play (go_play (go_play Goban.start Color.white 1 1).2
      Color.black 0 1).2 Color.black 1 0).2 Color.black 1 2).1 =
      PlayOutcome.accepted (1, 2) none [] ∧
    (go_play (go_play (go_play (go_play (go_play Goban.start Color.white 1 1).2
      Color.black 0 1).2 Color.black 1 0).2 Color.black 1 2).2 Color.black 2 1).1 =
      PlayOutcome.accepted (2, 1) (some Color.white) [(1, 1)] ∧
    cellGet (go_play (go_play (go_play (go_play (go_play Goban.start Color.white 1 1).2
      Color.black 0 1).2 Color.black 1 0).2 Color.black 1 2).2 Color.black 2 1).2.board
      1 1 = none ∧
    cellGet (go_play (go_play (go_play (go_play (go_play Goban.start Color.white 1 1).2
      Color.black 0 1).2 Color.black 1 0).2 Color.black 1 2).2 Color.black 2 1).2.board
      0 1 = some Color.black ∧
    cellGet (go_play (go_play (go_play (go_play (go_play Goban.start Color.white 1 1).2
      Color.black 0 1).2 Color.black 1 0).2 Color.black 1 2).2 Color.black 2 1).2.board
      1 0 = some Color.black ∧
    cellGet (go_play (go_play (go_play (go_play (go_play Goban.start Color.white 1 1).2
      Color.black 0 1).2 Color.black 1 0).2 Color.black 1 2).2 Color.black 2 1).2.board
      1 2 = some Color.black ∧
    cellGet (go_play (go_play (go_play (go_play (go_play Goban.start Color.white 1 1).2
      Color.black 0 1).2 Color.black 1 0).2 Color.black 1 2).2 Color.black 2 1).2.board
      2 1 = some Color.black := by decide

/-- C8: an in-bounds resize yields an entirely empty board of the new
dimensions; an out-of-bounds resize is a complete no-op. -/
theorem C8_resize_bounds (g : Goban) (w h : Int) :
    (MIN_SIZE ≤ w ∧ w ≤ MAX_SIZE ∧ MIN_SIZE ≤ h ∧ h ≤ MAX_SIZE →
      resize g w h =
        Goban.mk w h (List.replicate h.toNat (List.replicate w.toNat none))
          g.last_row g.last_col) ∧
    ((w < MIN_SIZE ∨ w > MAX_SIZE ∨ h < MIN_SIZE ∨ h > MAX_SIZE) →
      resize g w h = g) := by
  constructor
  · intro hin
    unfold MIN_SIZE MAX_SIZE at hin
    unfold resize
    rw [if_neg (by unfold MIN_SIZE MAX_SIZE; omega)]
    rfl
  · intro hout
    unfold MIN_SIZE MAX_SIZE at hout
    unfold resize
    rw [if_pos (by unfold MIN_SIZE MAX_SIZE; omega)]

/-- Witness for C8: a concrete in-bounds resize producing the empty 4×5
board and a concrete out-of-bounds resize changing nothing. -/
theorem C8_witness :
    resize Goban.start 5 4 =
      Goban.mk 5 4 (List.replicate 4 (List.replicate 5 none)) none none ∧
    resize Goban.start 2 9 = Goban.start :=
  ⟨(C8_resize_bounds Goban.start 5 4).1 (by decide),
   (C8_resize_bounds Goban.start 2 9).2 (by decide)⟩

/-- C9 counterexample: after Black plays (2,1) the last move is (2,1);
the claim says an in-bounds resize clears the last-move coordinates, but
`resize`/`init_board` never touch them, so they still read (2,1). -/
theorem C9_counterexample :
    (resize (go_play Goban.start Color.black 2 1).2 5 5).last_row = some 2 ∧
    (resize (go_play Goban.start Color.black 2 1).2 5 5).last_col = some 1 := by decide

/-- C9 amended: a successful (in-bounds) resize discards all stones and
reallocates an empty grid of the new dimensions, but leaves the
last-move coordinates `last_row`/`last_col` unchanged rather than
clearing them. -/
theorem C9_amended_resize_keeps_last_move (g : Goban) (w h : Int)
    (hin : MIN_SIZE ≤ w ∧ w ≤ MAX_SIZE ∧ MIN_SIZE ≤ h ∧ h ≤ MAX_SIZE) :
    (resize g w h).board = List.replicate h.toNat (List.replicate w.toNat none) ∧
    (resize g w h).width = w ∧ (resize g w h).height = h ∧
    (resize g w h).last_row = g.last_row ∧ (resize g w h).last_col = g.last_col := by
  unfold MIN_SIZE MAX_SIZE at hin
  unfold resize
  rw [if_neg (by unfold MIN_SIZE MAX_SIZE; omega)]
  exact ⟨rfl, rfl, rfl, rfl, rfl⟩

/-- Witness for C9's amended claim at a concrete board with a recorded
last move. -/
theorem C9_witness :
    (resize (go_play Goban.start Color.black 2 1).2 5 5).board =
      List.replicate 5 (List.replicate 5 none) ∧
    (resize (go_play Goban.start Color.black 2 1).2 5 5).width = 5 ∧
    (resize (go_play Goban.start Color.black 2 1).2 5 5).height = 5 ∧
    (resize (go_play Goban.start Color.black 2 1).2 5 5).last_row = some 2 ∧
    (resize (go_play Goban.start Color.black 2 1).2 5 5).last_col = some 1 :=
  C9_amended_resize_keeps_last_move (go_play Goban.start Color.black 2 1).2 5 5 (by decide)

/-- C10: one `invert` swaps Black and White at every cell and keeps empty
cells empty with the dimensions unchanged, and `invert` twice restores
the original grid. -/
theorem C10_invert_involution (g : Goban) :
    (invert g).width = g.width ∧ (invert g).height = g.height ∧
    (∀ r c : Int,
      (cellGet g.board r c = some Color.black →
        cellGet (invert g).board r c = some Color.white) ∧
      (cellGet g.board r c = some Color.white →
        cellGet (invert g).board r c = some Color.black) ∧
      (cellGet g.board r c = none → cellGet (invert g).board r c = none)) ∧
    (invert (invert g)).board = g.board := by
  refine ⟨rfl, rfl, ?_, ?_⟩
  · intro r c
    refine ⟨?_, ?_, ?_⟩
    · intro h
      rw [cellGet_invert, h]
      rfl
    · intro h
      rw [cellGet_invert, h]
      rfl
    · intro h
      rw [cellGet_invert, h]
      rfl
  · show ((g.board.map (fun row => row.map invertCell)).map
      (fun row => row.map invertCell)) = g.board
    exact grid_invert_invol g.board

/-- Witness for C10 on a concrete 2×3 board holding a black stone, a
white stone and an empty cell. -/
theorem C10_witness :
    cellGet (invert (Goban.mk 3 2
      [[some Color.black, none, some Color.white], [none, none, none]]
      none none)).board 0 0 = some Color.white ∧
    cellGet (invert (Goban.mk 3 2
      [[some Color.black, none, some Color.white], [none, none, none]]
      none none)).board 0 2 = some Color.black ∧
    cellGet (invert (Goban.mk 3 2
      [[some Color.black, none, some Color.white], [none, none, none]]
      none none)).board 0 1 = none ∧
    (invert (invert (Goban.mk 3 2
      [[some Color.black, none, some Color.white], [none, none, none]]
      none none))).board =
      [[some Color.black, none, some Color.white], [none, none, none]] :=
  ⟨((C10_invert_involution _).2.2.1 0 0).1 (by decide),
   ((C10_invert_involution _).2.2.1 0 2).2.1 (by decide),
   ((C10_invert_involution _).2.2.1 0 1).2.2 (by decide),
   (C10_invert_involution _).2.2.2⟩

/-! ### Invariants of the recursive liberty search

`RCOut` collects everything one invocation of `recurse_captures`
guarantees about its result and output table relative to its input table
`t`; `RCLOut` is the same for the delta loop `recurse_over`.  Both are
established by induction on the fuel, which is adequate whenever it
exceeds the number of unvisited table entries (each nested call marks a
fresh cell first). -/

structure RCOut (g : Goban) (c : Color) (t : Table) (row col : Int)
    (out : Option (List (Int × Int)) × Table) : Prop where
  tw : GridWF g.height.toNat g.width.toNat out.2
  persist : ∀ q, MarkedAt t q → MarkedAt out.2 q
  free_le : freeCount out.2 ≤ freeCount t
  marks_new : ∀ q, MarkedAt out.2 q →
    MarkedAt t q ∨ (is_valid g q.1 q.2 = true ∧ cellGet g.board q.1 q.2 = some c)
  none_case : out.1 = none → out.2 = t ∧
    (is_valid g row col = false ∨ MarkedAt t (row, col) ∨
      (cellGet g.board row col ≠ none ∧ cellGet g.board row col ≠ some c))
  grp : ∀ L, out.1 = some L → L ≠ [] →
    (∀ q, MarkedAt out.2 q ↔ MarkedAt t q ∨ q ∈ L) ∧
    ((row, col) ∈ L ∧ L.Nodup) ∧
    (∀ p ∈ L, is_valid g p.1 p.2 = true ∧ cellGet g.board p.1 p.2 = some c ∧
      ¬ MarkedAt t p) ∧
    (∀ p ∈ L, ∀ d ∈ SQUARE_DELTAS,
      is_valid g (p.1 + d.1) (p.2 + d.2) = true →
      cellGet g.board (p.1 + d.1) (p.2 + d.2) ≠ none ∧
      (cellGet g.board (p.1 + d.1) (p.2 + d.2) = some c →
        (p.1 + d.1, p.2 + d.2) ∈ L ∨ MarkedAt t (p.1 + d.1, p.2 + d.2)))

structure RCLOut (g : Goban) (c : Color) (t : Table) (ds : List (Int × Int))
    (row col : Int) (out : Bool × List (Int × Int) × Table) : Prop where
  tw : GridWF g.height.toNat g.width.toNat out.2.2
  persist : ∀ q, MarkedAt t q → MarkedAt out.2.2 q
  free_le : freeCount out.2.2 ≤ freeCount t
  marks_new : ∀ q, MarkedAt out.2.2 q →
    MarkedAt t q ∨ (is_valid g q.1 q.2 = true ∧ cellGet g.board q.1 q.2 = some c)
  bail_acc : out.1 = true → out.2.1 = []
  no_bail : out.1 = false →
    (∀ q, MarkedAt out.2.2 q ↔ MarkedAt t q ∨ q ∈ out.2.1) ∧
    out.2.1.Nodup ∧
    (∀ p ∈ out.2.1, is_valid g p.1 p.2 = true ∧ cellGet g.board p.1 p.2 = some c ∧
      ¬ MarkedAt t p) ∧
    (∀ p ∈ out.2.1, ∀ d ∈ SQUARE_DELTAS,
      is_valid g (p.1 + d.1) (p.2 + d.2) = true →
      cellGet g.board (p.1 + d.1) (p.2 + d.2) ≠ none ∧
      (cellGet g.board (p.1 + d.1) (p.2 + d.2) = some c →
        (p.1 + d.1, p.2 + d.2) ∈ out.2.1 ∨ MarkedAt t (p.1 + d.1, p.2 + d.2))) ∧
    (∀ d ∈ ds, is_valid g (row + d.1) (col + d.2) = true →
      cellGet g.board (row + d.1) (col + d.2) ≠ none ∧
      (cellGet g.board (row + d.1) (col + d.2) = some c →
        (row + d.1, col + d.2) ∈ out.2.1 ∨ MarkedAt t (row + d.1, col + d.2)))

theorem RCOut.marksOK {g : Goban} {c : Color} {t : Table} {row col : Int}
    {out : Option (List (Int × Int)) × Table} (O : RCOut g c t row col out)
    (hmok : MarksOK g t) : MarksOK g out.2 := by
  intro q hq
  rcases O.marks_new q hq with h | ⟨hv, hc⟩
  · exact hmok q h
  · exact ⟨hv, by rw [hc]; simp⟩

/-- `recurse_captures` at fuel `n` satisfies its invariant whenever the
fuel exceeds the number of unvisited entries. -/
def RCP (g : Goban) (c : Color) (n : Nat) : Prop :=
  ∀ row col t, GridWF g.height.toNat g.width.toNat t → MarksOK g t →
    freeCount t < n → RCOut g c t row col (recurse_captures g c n row col t)

/-- The delta loop with the recursor at fuel `n` satisfies its invariant. -/
def RCLP (g : Goban) (c : Color) (n : Nat) : Prop :=
  ∀ ds row col t, GridWF g.height.toNat g.width.toNat t → MarksOK g t →
    freeCount t < n →
    RCLOut g c t ds row col (recurse_over (recurse_captures g c n) ds row col t)

theorem rclp_of_rcp {g : Goban} {c : Color} {n : Nat} (hp : RCP g c n) :
    RCLP g c n := by
  intro ds
  induction ds with
  | nil =>
    intro row col t htw hmok hfree
    refine ⟨htw, fun q h => h, Nat.le_refl _, fun q h => Or.inl h, fun _ => rfl, ?_⟩
    intro _
    refine ⟨?_, List.nodup_nil, ?_, ?_, ?_⟩
    · intro q
      constructor
      · exact fun h => Or.inl h
      · rintro (h | h)
        · exact h
        · exact absurd h (List.not_mem_nil q)
    · intro p hp2; exact absurd hp2 (List.not_mem_nil p)
    · intro p hp2; exact absurd hp2 (List.not_mem_nil p)
    · intro d hd; exact absurd hd (List.not_mem_nil d)
  | cons d ds ih =>
    intro row col t htw hmok hfree
    have O := hp (row + d.1) (col + d.2) t htw hmok hfree
    show RCLOut g c t (d :: ds) row col
      (recurse_over (recurse_captures g c n) (d :: ds) row col t)
    rcases hrc : recurse_captures g c n (row + d.1) (col + d.2) t with ⟨res, t2⟩
    rw [hrc] at O
    rcases res with _ | l
    · -- the neighbor call returned None: table unchanged, keep looping
      have hstep : recurse_over (recurse_captures g c n) (d :: ds) row col t =
          recurse_over (recurse_captures g c n) ds row col t2 := by
        rw [recurse_over, hrc]
      obtain ⟨ht2, hdisj⟩ := O.none_case rfl
      subst ht2
      rw [hstep]
      have OL := ih row col t2 htw hmok hfree
      refine ⟨OL.tw, OL.persist, OL.free_le, OL.marks_new, OL.bail_acc, ?_⟩
      intro hb
      obtain ⟨hiff, hnd, hprops, hclo, hdelta⟩ := OL.no_bail hb
      refine ⟨hiff, hnd, hprops, hclo, ?_⟩
      intro d2 hd2 hv
      rcases List.mem_cons.1 hd2 with rfl | hd2
      · rcases hdisj with hinv | hmk | ⟨hne, hnc⟩
        · rw [hv] at hinv; simp at hinv
        · exact ⟨(hmok _ hmk).2, fun _ => Or.inr hmk⟩
        · exact ⟨hne, fun he => absurd he hnc⟩
      · exact hdelta d2 hd2 hv
    · rcases l with _ | ⟨x, l2⟩
      · -- the neighbor call found a liberty: bail immediately
        have hstep : recurse_over (recurse_captures g c n) (d :: ds) row col t =
            (true, [], t2) := by
          rw [recurse_over, hrc]
        rw [hstep]
        refine ⟨O.tw, O.persist, O.free_le, O.marks_new, fun _ => rfl, ?_⟩
        intro hb; simp at hb
      · -- the neighbor call returned a no-liberty fragment: keep looping
        obtain ⟨hiff1, ⟨hroot1, hnd1⟩, hprops1, hclo1⟩ :=
          O.grp (x :: l2) rfl (by simp)
        rcases hrest : recurse_over (recurse_captures g c n) ds row col t2 with
          ⟨b2, acc2, t3⟩
        have OL := ih row col t2 O.tw (O.marksOK hmok)
          (Nat.lt_of_le_of_lt O.free_le hfree)
        rw [hrest] at OL
        rcases b2 with _ | _
        · -- rest of the loop did not bail
          have hstep : recurse_over (recurse_captures g c n) (d :: ds) row col t =
              (false, (x :: l2) ++ acc2, t3) := by
            rw [recurse_over, hrc]
            dsimp only
            rw [hrest]
          rw [hstep]
          obtain ⟨hiff2, hnd2, hprops2, hclo2, hdelta2⟩ := OL.no_bail rfl
          have hl_marked_t2 : ∀ p ∈ x :: l2, MarkedAt t2 p := by
            intro p hp2
            exact (hiff1 p).2 (Or.inr hp2)
          have hiff3 : ∀ q, MarkedAt t3 q ↔ MarkedAt t q ∨ q ∈ (x :: l2) ++ acc2 := by
            intro q
            rw [show MarkedAt t3 q ↔ MarkedAt t2 q ∨ q ∈ acc2 from hiff2 q,
              show MarkedAt t2 q ↔ MarkedAt t q ∨ q ∈ x :: l2 from hiff1 q,
              List.mem_append]
            tauto
          refine ⟨OL.tw, ?_, Nat.le_trans OL.free_le O.free_le, ?_, ?_, ?_⟩
          · exact fun q h => OL.persist q (O.persist q h)
          · intro q hq
            rcases OL.marks_new q hq with h | h
            · rcases O.marks_new q h with h2 | h2
              · exact Or.inl h2
              · exact Or.inr h2
            · exact Or.inr h
          · intro hb; simp at hb
          · intro _
            refine ⟨hiff3, ?_, ?_, ?_, ?_⟩
            · -- no duplicates across the two fragments
              rw [List.nodup_append]
              refine ⟨hnd1, hnd2, ?_⟩
              intro p hpl hpacc
              exact (hprops2 p hpacc).2.2 (hl_marked_t2 p hpl)
            · intro p hp2
              rcases List.mem_append.1 hp2 with hp2 | hp2
              · obtain ⟨h1, h2, h3⟩ := hprops1 p hp2
                exact ⟨h1, h2, h3⟩
              · obtain ⟨h1, h2, h3⟩ := hprops2 p hp2
                exact ⟨h1, h2, fun hm => h3 (O.persist p hm)⟩
            · intro p hp2 d2 hd2 hv2
              rcases List.mem_append.1 hp2 with hp2 | hp2
              · obtain ⟨h1, h2⟩ := hclo1 p hp2 d2 hd2 hv2
                refine ⟨h1, ?_⟩
                intro hcc
                rcases h2 hcc with h3 | h3
                · exact Or.inl (List.mem_append.2 (Or.inl h3))
                · exact Or.inr h3
              · obtain ⟨h1, h2⟩ := hclo2 p hp2 d2 hd2 hv2
                refine ⟨h1, ?_⟩
                intro hcc
                rcases h2 hcc with h3 | h3
                · exact Or.inl (List.mem_append.2 (Or.inr h3))
                · rcases (hiff1 _).1 h3 with h4 | h4
                  · exact Or.inr h4
                  · exact Or.inl (List.mem_append.2 (Or.inl h4))
            · intro d2 hd2 hv2
              rcases List.mem_cons.1 hd2 with rfl | hd2
              · obtain ⟨h1, h2, _⟩ := hprops1 _ hroot1
                refine ⟨by rw [h2]; simp, ?_⟩
                intro _
                exact Or.inl (List.mem_append.2 (Or.inl hroot1))
              · obtain ⟨h1, h2⟩ := hdelta2 d2 hd2 hv2
                refine ⟨h1, ?_⟩
                intro hcc
                rcases h2 hcc with h3 | h3
                · exact Or.inl (List.mem_append.2 (Or.inr h3))
                · rcases (hiff1 _).1 h3 with h4 | h4
                  · exact Or.inr h4
                  · exact Or.inl (List.mem_append.2 (Or.inl h4))
        · -- rest of the loop bailed on a liberty
          have hstep : recurse_over (recurse_captures g c n) (d :: ds) row col t =
              (true, [], t3) := by
            rw [recurse_over, hrc]
            dsimp only
            rw [hrest]
          rw [hstep]
          refine ⟨OL.tw, ?_, Nat.le_trans OL.free_le O.free_le, ?_, fun _ => rfl, ?_⟩
          · exact fun q h => OL.persist q (O.persist q h)
          · intro q hq
            rcases OL.marks_new q hq with h | h
            · rcases O.marks_new q h with h2 | h2
              · exact Or.inl h2
              · exact Or.inr h2
            · exact Or.inr h
          · intro hb; simp at hb

theorem rcp_all (g : Goban) (c : Color) : ∀ n : Nat, RCP g c n := by
  intro n
  induction n with
  | zero =>
    intro row col t _ _ hfree
    exact absurd hfree (by omega)
  | succ n ihn =>
    intro row col t htw hmok hfree
    have hl : RCLP g c n := rclp_of_rcp ihn
    by_cases hv : is_valid g row col = false
    · have hstep : recurse_captures g c (n + 1) row col t = (none, t) := by
        rw [recurse_captures, if_pos hv]
      rw [hstep]
      refine ⟨htw, fun q h => h, Nat.le_refl _, fun q h => Or.inl h, ?_, ?_⟩
      · exact fun _ => ⟨rfl, Or.inl hv⟩
      · intro L hL; simp at hL
    · have hv2 : is_valid g row col = true := by
        revert hv
        rcases is_valid g row col with _ | _
        · intro h; exact absurd rfl h
        · intro _; rfl
      obtain ⟨hnn1, hnn2⟩ := is_valid_nonneg hv2
      by_cases hm : tableGet t row col = true
      · have hstep : recurse_captures g c (n + 1) row col t = (none, t) := by
          rw [recurse_captures, if_neg (by rw [hv2]; simp), if_pos hm]
        rw [hstep]
        refine ⟨htw, fun q h => h, Nat.le_refl _, fun q h => Or.inl h, ?_, ?_⟩
        · exact fun _ => ⟨rfl, Or.inr (Or.inl ⟨hnn1, hnn2, hm⟩)⟩
        · intro L hL; simp at hL
      · by_cases he : cellGet g.board row col = none
        · have hstep : recurse_captures g c (n + 1) row col t = (some [], t) := by
            rw [recurse_captures, if_neg (by rw [hv2]; simp), if_neg hm, if_pos he]
          rw [hstep]
          refine ⟨htw, fun q h => h, Nat.le_refl _, fun q h => Or.inl h, ?_, ?_⟩
          · intro h; simp at h
          · intro L hL hLne
            exact absurd (by simpa using hL.symm) hLne
        · by_cases hcc : cellGet g.board row col = some c
          · -- the interesting branch: mark this stone and loop the neighbors
            obtain ⟨hr, hcol⟩ := is_valid_toNat hv2
            obtain ⟨xb, hxb⟩ := gridGet_some_of_lt htw hr hcol
            have hget : gridGet t row col = some false := by
              have hxval : tableGet t row col = xb := by
                unfold tableGet
                rw [hxb]
                rfl
              rcases xb with _ | _
              · exact hxb
              · rw [hxval] at hm; exact absurd rfl hm
            have hstep : recurse_captures g c (n + 1) row col t =
                (match recurse_over (recurse_captures g c n) SQUARE_DELTAS row col
                    (gridSet t row col true) with
                 | (true, _, t2) => (some [], t2)
                 | (false, acc, t2) => (some ((row, col) :: acc), t2)) := by
              rw [recurse_captures, if_neg (by rw [hv2]; simp), if_neg hm,
                if_neg he, if_neg (by simp [hcc])]
            have htw1 : GridWF g.height.toNat g.width.toNat (gridSet t row col true) :=
              gridSet_wf htw row col true
            have hiff_t1 : ∀ q, MarkedAt (gridSet t row col true) q ↔
                q = (row, col) ∨ MarkedAt t q :=
              fun q => markedAt_set_iff hnn1 hnn2 hget q
            have hmok1 : MarksOK g (gridSet t row col true) := by
              intro q hq
              rcases (hiff_t1 q).1 hq with rfl | hq2
              · exact ⟨hv2, by rw [hcc]; simp⟩
              · exact hmok q hq2
            have hfree1 : freeCount (gridSet t row col true) < n := by
              have h1 := freeCount_set_true hget
              omega
            have hmark_un : ¬ MarkedAt t (row, col) := by
              rintro ⟨_, _, hmm⟩
              exact hm hmm
            rcases hloop : recurse_over (recurse_captures g c n) SQUARE_DELTAS row col
              (gridSet t row col true) with ⟨b, acc, t2⟩
            have OL := hl SQUARE_DELTAS row col (gridSet t row col true) htw1 hmok1 hfree1
            rw [hloop] at OL
            have hfree2 : freeCount t2 ≤ freeCount t := by
              have h1 := freeCount_set_true hget
              have h2 : freeCount t2 ≤ freeCount (gridSet t row col true) := OL.free_le
              omega
            have hpersist2 : ∀ q, MarkedAt t q → MarkedAt t2 q := by
              intro q hq
              exact OL.persist q ((hiff_t1 q).2 (Or.inr hq))
            have hnew2 : ∀ q, MarkedAt t2 q →
                MarkedAt t q ∨ (is_valid g q.1 q.2 = true ∧ cellGet g.board q.1 q.2 = some c) := by
              intro q hq
              rcases OL.marks_new q hq with h | h
              · rcases (hiff_t1 q).1 h with rfl | h2
                · exact Or.inr ⟨hv2, hcc⟩
                · exact Or.inl h2
              · exact Or.inr h
            rcases b with _ | _
            · -- the loop exhausted every neighbor without a liberty
              rw [hstep, hloop]
              obtain ⟨hiffL, hndL, hpropsL, hcloL, hdeltaL⟩ := OL.no_bail rfl
              have hroot_marked1 : MarkedAt (gridSet t row col true) (row, col) :=
                (hiff_t1 (row, col)).2 (Or.inl rfl)
              have hroot_notin : (row, col) ∉ acc := by
                intro hmem
                exact (hpropsL _ hmem).2.2 hroot_marked1
              refine ⟨OL.tw, hpersist2, hfree2, hnew2, ?_, ?_⟩
              · intro h; simp at h
              · intro L hL hLne
                have hL2 : L = (row, col) :: acc := by simpa using hL.symm
                subst hL2
                refine ⟨?_, ⟨List.mem_cons_self _ _, ?_⟩, ?_, ?_⟩
                · intro q
                  rw [show MarkedAt t2 q ↔ MarkedAt (gridSet t row col true) q ∨ q ∈ acc
                      from hiffL q,
                    show MarkedAt (gridSet t row col true) q ↔ q = (row, col) ∨ MarkedAt t q
                      from hiff_t1 q, List.mem_cons]
                  tauto
                · exact List.nodup_cons.2 ⟨hroot_notin, hndL⟩
                · intro p hp2
                  rcases List.mem_cons.1 hp2 with rfl | hp2
                  · exact ⟨hv2, hcc, hmark_un⟩
                  · obtain ⟨h1, h2, h3⟩ := hpropsL p hp2
                    refine ⟨h1, h2, ?_⟩
                    intro hmk
                    exact h3 ((hiff_t1 p).2 (Or.inr hmk))
                · intro p hp2 d2 hd2 hv3
                  rcases List.mem_cons.1 hp2 with rfl | hp2
                  · obtain ⟨h1, h2⟩ := hdeltaL d2 hd2 hv3
                    refine ⟨h1, ?_⟩
                    intro hceq
                    rcases h2 hceq with h3 | h3
                    · exact Or.inl (List.mem_cons_of_mem _ h3)
                    · rcases (hiff_t1 _).1 h3 with h4 | h4
                      · exact Or.inl (by rw [h4]; exact List.mem_cons_self _ _)
                      · exact Or.inr h4
                  · obtain ⟨h1, h2⟩ := hcloL p hp2 d2 hd2 hv3
                    refine ⟨h1, ?_⟩
                    intro hceq
                    rcases h2 hceq with h3 | h3
                    · exact Or.inl (List.mem_cons_of_mem _ h3)
                    · rcases (hiff_t1 _).1 h3 with h4 | h4
                      · exact Or.inl (by rw [h4]; exact List.mem_cons_self _ _)
                      · exact Or.inr h4
            · -- some neighbor found a liberty: report the group safe
              rw [hstep, hloop]
              refine ⟨OL.tw, hpersist2, hfree2, hnew2, ?_, ?_⟩
              · intro h; simp at h
              · intro L hL hLne
                exact absurd (by simpa using hL.symm) hLne
          · -- wrong color under the new stone's neighbor
            have hstep : recurse_captures g c (n + 1) row col t = (none, t) := by
              rw [recurse_captures, if_neg (by rw [hv2]; simp), if_neg hm,
                if_neg he, if_pos hcc]
            rw [hstep]
            refine ⟨htw, fun q h => h, Nat.le_refl _, fun q h => Or.inl h, ?_, ?_⟩
            · exact fun _ => ⟨rfl, Or.inr (Or.inr ⟨he, hcc⟩)⟩
            · intro L hL; simp at hL

/-! ### Consequences of the search invariant -/

/-- The color the opponent of `c` plays. -/
def otherColor : Color → Color
  | Color.white => Color.black
  | Color.black => Color.white

theorem otherColor_ne (c : Color) : otherColor c ≠ c := by
  rcases c with _ | _
  · intro h; exact absurd h (by simp [otherColor])
  · intro h; exact absurd h (by simp [otherColor])

theorem eq_otherColor_of_ne {c1 c2 : Color} (h : c1 ≠ c2) : c1 = otherColor c2 := by
  rcases c1 with _ | _ <;> rcases c2 with _ | _
  · exact absurd rfl h
  · rfl
  · rfl
  · exact absurd rfl h

theorem marksOK_fresh (g : Goban) : MarksOK g (freshTable g) :=
  fun q hq => absurd hq (markedAt_fresh g q)

theorem freeCount_fresh_lt (g : Goban) : freeCount (freshTable g) < FUEL g := by
  rw [freeCount_fresh]
  unfold FUEL
  omega

/-- Soundness of the liberty search: when a root call returns a member
list, none of the listed stones belongs to a group with a liberty —
provided every pre-existing mark of the input table sits on a valid
nonempty cell whose color is not the color being traced. -/
theorem rc_sound {g : Goban} {c : Color} {t : Table} {row col : Int}
    {L : List (Int × Int)} {t2 : Table}
    (htw : GridWF g.height.toNat g.width.toNat t) (hmok : MarksOK g t)
    (hfree : freeCount t < FUEL g)
    (hnotc : ∀ q, MarkedAt t q → cellGet g.board q.1 q.2 ≠ some c)
    (hrc : recurse_captures g c (FUEL g) row col t = (some L, t2)) :
    ∀ p ∈ L, ¬ GroupHasLiberty g c p := by
  rcases L with _ | ⟨x, l⟩
  · intro p hp; exact absurd hp (List.not_mem_nil p)
  · have O := rcp_all g c (FUEL g) row col t htw hmok hfree
    rw [hrc] at O
    obtain ⟨hiff, ⟨hroot, hnd⟩, hprops, hclo⟩ := O.grp (x :: l) rfl (by simp)
    have hgrp_sub : ∀ p ∈ x :: l, ∀ q, InGroup g c p q → q ∈ x :: l := by
      intro p hp q hq
      induction hq with
      | refl => exact hp
      | tail _ hstep ihh =>
        obtain ⟨⟨d2, hd2, rfl⟩, hvq, hcq⟩ := hstep
        obtain ⟨_, h2⟩ := hclo _ ihh d2 hd2 hvq
        rcases h2 hcq with h3 | h3
        · exact h3
        · exact absurd hcq (hnotc _ h3)
    intro p hp hlib
    obtain ⟨q, hq_grp, hq_lib⟩ := hlib
    have hqL := hgrp_sub p hp q hq_grp
    obtain ⟨d, hd, hvd, hcd⟩ := hq_lib
    exact (hclo q hqL d hd hvd).1 hcd

/-- Each single root call of the liberty search, run on a fresh table,
lists every captured coordinate at most once. -/
theorem rc_fresh_nodup {g : Goban} {c : Color} {row col : Int}
    {L : List (Int × Int)} {t2 : Table}
    (_hw : WF g)
    (hrc : recurse_captures g c (FUEL g) row col (freshTable g) = (some L, t2)) :
    L.Nodup := by
  rcases L with _ | ⟨x, l⟩
  · exact List.nodup_nil
  · have O := rcp_all g c (FUEL g) row col (freshTable g) (freshTable_wf g)
      (marksOK_fresh g) (freeCount_fresh_lt g)
    rw [hrc] at O
    exact (O.grp (x :: l) rfl (by simp)).2.1.2

/-- A root call on a fresh table, rooted at a valid stone of the traced
color whose group has a liberty, bails with the empty list. -/
theorem rc_fresh_bails {g : Goban} {c : Color} (_hw : WF g) (root : Int × Int)
    (hv : is_valid g root.1 root.2 = true)
    (hc : cellGet g.board root.1 root.2 = some c)
    (hlib : GroupHasLiberty g c root) :
    ∃ t2, recurse_captures g c (FUEL g) root.1 root.2 (freshTable g) =
      (some [], t2) := by
  rcases hrc : recurse_captures g c (FUEL g) root.1 root.2 (freshTable g) with ⟨res, t2⟩
  have O := rcp_all g c (FUEL g) root.1 root.2 (freshTable g) (freshTable_wf g)
    (marksOK_fresh g) (freeCount_fresh_lt g)
  rw [hrc] at O
  rcases res with _ | l
  · obtain ⟨_, hdisj⟩ := O.none_case rfl
    rcases hdisj with h1 | h1 | ⟨_, h1⟩
    · rw [hv] at h1; simp at h1
    · exact absurd h1 (markedAt_fresh g _)
    · exact absurd hc h1
  · rcases l with _ | ⟨x, l2⟩
    · exact ⟨t2, rfl⟩
    · exfalso
      have hsound := rc_sound (freshTable_wf g) (marksOK_fresh g)
        (freeCount_fresh_lt g) (fun q hq => absurd hq (markedAt_fresh g q)) hrc
      have hrootL : (root.1, root.2) ∈ x :: l2 :=
        (O.grp (x :: l2) rfl (by simp)).2.1.1
      exact hsound root hrootL hlib

/-- A call of the liberty search at a valid cell that is occupied but
not of the traced color returns `None` and leaves the table alone, no
matter whether the cell was already visited. -/
theorem rc_wrong_color_none {g : Goban} {c : Color} {r2 c2 : Int} {t : Table}
    {m : Nat} (hv2 : is_valid g r2 c2 = true)
    (hcell : cellGet g.board r2 c2 ≠ none)
    (hne : cellGet g.board r2 c2 ≠ some c) :
    recurse_captures g c (m + 1) r2 c2 t = (none, t) := by
  rw [recurse_captures, if_neg (by rw [hv2]; simp)]
  by_cases hm : tableGet t r2 c2 = true
  · rw [if_pos hm]
  · rw [if_neg hm, if_neg hcell, if_pos hne]

/-! ### The neighbor scan and the opponent-root loop -/

/-- Invariant of the neighbor-scan fold: collected opponent pieces are
valid stones of the opponent's color, and the recorded opponent color is
the opponent's color. -/
theorem scan_fold_inv (g : Goban) (color : Color) (row col : Int) :
    ∀ (dl : List (Int × Int)) (a : List (Int × Int) × Bool × Option Color),
      ((∀ p ∈ a.1, is_valid g p.1 p.2 = true ∧
          cellGet g.board p.1 p.2 = some (otherColor color)) ∧
        (∀ oc, a.2.2 = some oc → oc = otherColor color)) →
      ((∀ p ∈ (dl.foldl (fun acc d =>
          let nr := row + d.1
          let nc := col + d.2
          if is_valid g nr nc then
            match cellGet g.board nr nc with
            | some c2 =>
              if c2 ≠ color then (acc.1 ++ [(nr, nc)], acc.2.1, some c2) else acc
            | none => (acc.1, true, acc.2.2)
          else acc) a).1, is_valid g p.1 p.2 = true ∧
          cellGet g.board p.1 p.2 = some (otherColor color)) ∧
        (∀ oc, (dl.foldl (fun acc d =>
          let nr := row + d.1
          let nc := col + d.2
          if is_valid g nr nc then
            match cellGet g.board nr nc with
            | some c2 =>
              if c2 ≠ color then (acc.1 ++ [(nr, nc)], acc.2.1, some c2) else acc
            | none => (acc.1, true, acc.2.2)
          else acc) a).2.2 = some oc → oc = otherColor color)) := by
  intro dl
  induction dl with
  | nil => intro a ha; exact ha
  | cons d dl ih =>
    intro a ha
    rw [List.foldl_cons]
    apply ih
    by_cases hv : is_valid g (row + d.1) (col + d.2) = true
    · rcases hc : cellGet g.board (row + d.1) (col + d.2) with _ | c2
      · simp only [hv, if_true, hc]
        exact ⟨ha.1, ha.2⟩
      · simp only [hv, if_true, hc]
        by_cases hcc : c2 = color
        · rw [if_neg (by simp [hcc])]
          exact ha
        · rw [if_pos (by simp [hcc])]
          refine ⟨?_, ?_⟩
          · intro p hp2
            rcases List.mem_append.1 hp2 with hp2 | hp2
            · exact ha.1 p hp2
            · have hp3 : p = (row + d.1, col + d.2) := by simpa using hp2
              subst hp3
              exact ⟨hv, by rw [hc, eq_otherColor_of_ne hcc]⟩
          · intro oc hoc
            have hco : c2 = oc := by simpa using hoc
            subst hco
            exact eq_otherColor_of_ne hcc
    · have hv2 : is_valid g (row + d.1) (col + d.2) = false := by
        revert hv
        rcases is_valid g (row + d.1) (col + d.2) with _ | _
        · intro _; rfl
        · intro h; exact absurd rfl h
      simp only [hv2]
      rw [if_neg (by simp)]
      exact ha

/-- The collected opponent pieces of `scanNeighbors` are valid stones of
the opponent's color, and the recorded color is the opponent's. -/
theorem scanNeighbors_spec (g : Goban) (color : Color) (row col : Int) :
    (∀ p ∈ (scanNeighbors g color row col).1, is_valid g p.1 p.2 = true ∧
      cellGet g.board p.1 p.2 = some (otherColor color)) ∧
    (∀ oc, (scanNeighbors g color row col).2.2 = some oc → oc = otherColor color) := by
  have h := scan_fold_inv g color row col SQUARE_DELTAS ([], false, none)
    ⟨fun p hp => absurd hp (List.not_mem_nil p), fun oc hoc => by simp at hoc⟩
  exact h

/-- What the opponent-root loop guarantees when it returns: every
accumulated coordinate is a valid opponent stone whose group has no
liberty, and the final table is well-formed with every mark on a valid
opponent stone. -/
theorem runRoots_spec {g : Goban} (_hw : WF g) (oc : Color) :
    ∀ (roots acc : List (Int × Int)) (t : Table)
      (out : List (Int × Int) × Table),
      runRoots g oc roots acc t = some out →
      (∀ p ∈ acc, is_valid g p.1 p.2 = true ∧ cellGet g.board p.1 p.2 = some oc ∧
        ¬ GroupHasLiberty g oc p) →
      (GridWF g.height.toNat g.width.toNat t ∧
        ∀ q, MarkedAt t q → is_valid g q.1 q.2 = true ∧
          cellGet g.board q.1 q.2 = some oc) →
      (∀ p ∈ out.1, is_valid g p.1 p.2 = true ∧ cellGet g.board p.1 p.2 = some oc ∧
        ¬ GroupHasLiberty g oc p) ∧
      (GridWF g.height.toNat g.width.toNat out.2 ∧
        ∀ q, MarkedAt out.2 q → is_valid g q.1 q.2 = true ∧
          cellGet g.board q.1 q.2 = some oc) := by
  intro roots
  induction roots with
  | nil =>
    intro acc t out hrun hacc ht
    rw [runRoots] at hrun
    have hout := Option.some.inj hrun
    subst hout
    exact ⟨hacc, ht⟩
  | cons p ps ih =>
    intro acc t out hrun hacc ht
    rw [runRoots] at hrun
    rcases hrc : recurse_captures g oc (FUEL g) p.1 p.2 (freshTable g) with ⟨res, t2⟩
    rw [hrc] at hrun
    rcases res with _ | l
    · dsimp only at hrun
      exact absurd hrun (by simp)
    · dsimp only at hrun
      have O := rcp_all g oc (FUEL g) p.1 p.2 (freshTable g) (freshTable_wf g)
        (marksOK_fresh g) (freeCount_fresh_lt g)
      rw [hrc] at O
      have hl_props : ∀ p2 ∈ l, is_valid g p2.1 p2.2 = true ∧
          cellGet g.board p2.1 p2.2 = some oc ∧ ¬ GroupHasLiberty g oc p2 := by
        intro p2 hp2
        have hlne : l ≠ [] := by
          intro h; subst h; exact absurd hp2 (List.not_mem_nil p2)
        obtain ⟨h1, h2, _⟩ := (O.grp l rfl hlne).2.2.1 p2 hp2
        exact ⟨h1, h2, rc_sound (freshTable_wf g) (marksOK_fresh g)
          (freeCount_fresh_lt g) (fun q hq => absurd hq (markedAt_fresh g q)) hrc p2 hp2⟩
      have ht2 : GridWF g.height.toNat g.width.toNat t2 ∧
          ∀ q, MarkedAt t2 q → is_valid g q.1 q.2 = true ∧
            cellGet g.board q.1 q.2 = some oc := by
        refine ⟨O.tw, ?_⟩
        intro q hq
        rcases O.marks_new q hq with h | h
        · exact absurd h (markedAt_fresh g q)
        · exact h
      refine ih (acc ++ l) t2 out hrun ?_ ht2
      intro p2 hp2
      rcases List.mem_append.1 hp2 with hp2 | hp2
      · exact hacc p2 hp2
      · exact hl_props p2 hp2

/-- Every coordinate in the capture list reported by `go_find_captures`
is a valid cell holding a stone whose group has no liberty. -/
theorem go_find_captures_spec {g1 : Goban} (hw1 : WF g1) {row col : Int}
    {color : Color} (hcol : cellGet g1.board row col = some color)
    {cc2 : Option Color} {L2 : List (Int × Int)}
    (hfc : go_find_captures g1 row col = some (cc2, L2)) :
    ∀ p ∈ L2, is_valid g1 p.1 p.2 = true ∧
      (∀ cp : Color, cellGet g1.board p.1 p.2 = some cp →
        ¬ GroupHasLiberty g1 cp p) := by
  unfold go_find_captures at hfc
  rw [hcol] at hfc
  dsimp only at hfc
  rcases hscan : scanNeighbors g1 color row col with ⟨oppList, emptyAdj, ocOpt⟩
  rw [hscan] at hfc
  dsimp only at hfc
  by_cases hcond : oppList = [] ∧ emptyAdj = true
  · rw [if_pos hcond] at hfc
    have heq := Option.some.inj hfc
    have hL : L2 = [] := (congrArg Prod.snd heq).symm
    subst hL
    intro p hp
    exact absurd hp (List.not_mem_nil p)
  · rw [if_neg hcond] at hfc
    rcases oppList with _ | ⟨op1, oprest⟩
    · dsimp only at hfc
      exact absurd hfc (by simp)
    · rcases ocOpt with _ | oc
      · dsimp only at hfc
        exact absurd hfc (by simp)
      · dsimp only at hfc
        rcases hrun : runRoots g1 oc (op1 :: oprest) [] (freshTable g1) with
          _ | ⟨capL, lastT⟩
        · rw [hrun] at hfc
          dsimp only at hfc
          exact absurd hfc (by simp)
        · rw [hrun] at hfc
          dsimp only at hfc
          obtain ⟨hcapP, hlastT⟩ := runRoots_spec hw1 oc (op1 :: oprest) []
            (freshTable g1) (capL, lastT) hrun
            (fun p hp => absurd hp (List.not_mem_nil p))
            ⟨freshTable_wf g1, fun q hq => absurd hq (markedAt_fresh g1 q)⟩
          have hoc_eq : oc = otherColor color :=
            (scanNeighbors_spec g1 color row col).2 oc (by rw [hscan])
          by_cases hcne : capL ≠ []
          · rw [if_pos hcne] at hfc
            have heq := Option.some.inj hfc
            have hL : L2 = capL := (congrArg Prod.snd heq).symm
            subst hL
            intro p hp
            obtain ⟨h1, h2, h3⟩ := hcapP p hp
            refine ⟨h1, ?_⟩
            intro cp hcp
            rw [h2] at hcp
            have hcpoc : oc = cp := Option.some.inj hcp
            subst hcpoc
            exact h3
          · rw [if_neg hcne] at hfc
            push_neg at hcne
            rcases hsui : recurse_captures g1 color (FUEL g1) row col lastT with
              ⟨res, t3⟩
            rw [hsui] at hfc
            rcases res with _ | l
            · dsimp only at hfc
              exact absurd hfc (by simp)
            · dsimp only at hfc
              have hmokT : MarksOK g1 lastT := by
                intro q hq
                obtain ⟨hq1, hq2⟩ := hlastT.2 q hq
                exact ⟨hq1, by rw [hq2]; simp⟩
              have hfreeT : freeCount lastT < FUEL g1 := by
                have h1 : freeCount lastT ≤ g1.height.toNat * g1.width.toNat :=
                  freeCount_le hlastT.1
                unfold FUEL
                omega
              have hnotc : ∀ q, MarkedAt lastT q →
                  cellGet g1.board q.1 q.2 ≠ some color := by
                intro q hq
                rw [(hlastT.2 q hq).2, hoc_eq]
                intro hcontra
                exact otherColor_ne color (Option.some.inj hcontra)
              by_cases hlne : l ≠ []
              · rw [if_pos hlne] at hfc
                have heq := Option.some.inj hfc
                have hL : L2 = l := (congrArg Prod.snd heq).symm
                subst hL
                have O2 := rcp_all g1 color (FUEL g1) row col lastT hlastT.1
                  hmokT hfreeT
                rw [hsui] at O2
                have hprops := (O2.grp L2 rfl hlne).2.2.1
                have hsound := rc_sound hlastT.1 hmokT hfreeT hnotc hsui
                intro p hp
                obtain ⟨h1, h2, _⟩ := hprops p hp
                refine ⟨h1, ?_⟩
                intro cp hcp
                rw [h2] at hcp
                have hcpc : color = cp := Option.some.inj hcp
                subst hcpc
                exact hsound p hp
              · rw [if_neg hlne] at hfc
                push_neg at hlne
                subst hlne
                have heq := Option.some.inj hfc
                have hL : L2 = [] := (congrArg Prod.snd heq).symm
                subst hL
                intro p hp
                exact absurd hp (List.not_mem_nil p)

/-- C3: for every well-formed board and every accepted play, no stone
belonging to a group with at least one liberty (on the board with the
new stone placed) appears in the returned capture list, nor is any such
stone cleared to empty by the play. -/
theorem C3_liberty_group_never_captured (g : Goban) (color : Color) (row col : Int)
    (coord : Int × Int) (cc : Option Color) (L : List (Int × Int)) (g2 : Goban)
    (hw : WF g)
    (hplay : go_play g color row col = (PlayOutcome.accepted coord cc L, g2)) :
    (∀ p ∈ L, ∀ cp : Color,
      cellGet (place g color row col).board p.1 p.2 = some cp →
      ¬ GroupHasLiberty (place g color row col) cp p) ∧
    (∀ p : Int × Int, is_valid g p.1 p.2 = true →
      cellGet (place g color row col).board p.1 p.2 ≠ none →
      cellGet g2.board p.1 p.2 = none →
      ∀ cp : Color, cellGet (place g color row col).board p.1 p.2 = some cp →
        ¬ GroupHasLiberty (place g color row col) cp p) := by
  unfold go_play at hplay
  by_cases hval : is_valid g row col = false
  · rw [if_pos hval] at hplay
    exact absurd (congrArg Prod.fst hplay) (by simp)
  · rw [if_neg hval] at hplay
    by_cases hocc : cellGet g.board row col = none
    · rw [if_neg (by simp [hocc])] at hplay
      have hval2 : is_valid g row col = true := by
        revert hval
        rcases is_valid g row col with _ | _
        · intro h; exact absurd rfl h
        · intro _; rfl
      have hw1 : WF (place g color row col) := place_wf hw color row col
      have hcol : cellGet (place g color row col).board row col = some color :=
        cellGet_place_self hw hval2 color
      rcases hfc : go_find_captures (place g color row col) row col with _ | ⟨cc2, L2⟩
      · rw [hfc] at hplay
        exact absurd (congrArg Prod.fst hplay) (by simp)
      · rw [hfc] at hplay
        dsimp only at hplay
        have hspec := go_find_captures_spec hw1 hcol hfc
        rcases cc2 with _ | c2
        · dsimp only at hplay
          have hfst := congrArg Prod.fst hplay
          have hsnd := congrArg Prod.snd hplay
          dsimp only at hfst hsnd
          injection hfst with e1 e2 e3
          subst e3
          refine ⟨?_, ?_⟩
          · intro p hp cp hcp
            exact (hspec p hp).2 cp hcp
          · intro p hvp hne hcleared cp hcp
            rw [← hsnd] at hcleared
            exact absurd hcleared hne
        · dsimp only at hplay
          have hfst := congrArg Prod.fst hplay
          have hsnd := congrArg Prod.snd hplay
          dsimp only at hfst hsnd
          injection hfst with e1 e2 e3
          subst e3
          refine ⟨?_, ?_⟩
          · intro p hp cp hcp
            exact (hspec p hp).2 cp hcp
          · intro p hvp hne hcleared cp hcp
            by_cases hmem : p ∈ L2
            · exact (hspec p hmem).2 cp hcp
            · exfalso
              have hnn := is_valid_nonneg hvp
              have hunch : cellGet g2.board p.1 p.2 =
                  cellGet (place g color row col).board p.1 p.2 := by
                rw [← hsnd]
                exact cellGet_clearStones_not_mem L2
                  (place g color row col).board p
                  (fun p2 hp2 => is_valid_nonneg (hspec p2 hp2).1) hnn.1 hnn.2 hmem
              rw [hunch] at hcleared
              exact hne hcleared
    · rw [if_pos hocc] at hplay
      exact absurd (congrArg Prod.fst hplay) (by simp)

/-- No mark of a table whose marks all carry the color `oc` can sit on
the cell at `(row, col)` when that cell holds a different color — stated
through the raw table read, so it also covers aliased negative
coordinates. -/
theorem no_mark_at_other_color {g1 : Goban} {t : Table} {row col : Int}
    {color oc : Color}
    (hcol : cellGet g1.board row col = some color)
    (hoc : oc ≠ color)
    (hmarks : ∀ q, MarkedAt t q → cellGet g1.board q.1 q.2 = some oc) :
    tableGet t row col = false := by
  by_cases h : tableGet t row col = true
  · exfalso
    have halias : MarkedAt t ((row.toNat : Int), (col.toNat : Int)) := by
      refine ⟨Int.natCast_nonneg _, Int.natCast_nonneg _, ?_⟩
      show (gridGet t ((row.toNat : Int)) ((col.toNat : Int))).getD false = true
      rw [show gridGet t ((row.toNat : Int)) ((col.toNat : Int)) = gridGet t row col from
        gridGet_toNat_congr t (by omega) (by omega)]
      unfold tableGet at h
      exact h
    have hcell2 := hmarks _ halias
    have hsame : cellGet g1.board ((row.toNat : Int)) ((col.toNat : Int)) =
        cellGet g1.board row col := by
      show (gridGet g1.board ((row.toNat : Int)) ((col.toNat : Int))).getD none =
        (gridGet g1.board row col).getD none
      rw [show gridGet g1.board ((row.toNat : Int)) ((col.toNat : Int)) =
          gridGet g1.board row col from gridGet_toNat_congr g1.board (by omega) (by omega)]
    rw [hsame, hcol] at hcell2
    exact hoc (Option.some.inj hcell2).symm
  · revert h
    rcases tableGet t row col with _ | _
    · intro _; rfl
    · intro h; exact absurd rfl h

/-- C6 counterexample: on the 3×3 board where Black just played the
corner (2,2) beside two liberty-having White stones, the capture
resolution falls through to the suicide check, and the visitation table
it hands that check already has the cell (2,1) marked — it is not a
freshly zeroed table. -/
theorem C6_counterexample :
    (suicideTableUsed (Goban.mk 3 3
      [[none, none, none],
       [none, none, some Color.white],
       [none, some Color.white, some Color.black]] (some 2) (some 2))
      2 2).map (fun t => tableGet t 2 1) = some true ∧
    tableGet (freshTable (Goban.mk 3 3
      [[none, none, none],
       [none, none, some Color.white],
       [none, some Color.white, some Color.black]] (some 2) (some 2))) 2 1 =
      false := by decide

/-- C6 amended: whenever capture resolution falls through to the suicide
check, the analyzer reuses the visitation table left over from the last
opponent-neighbor check (never a freshly zeroed one); every cell marked
in that table is a valid cell holding an opponent stone, so in
particular the just-placed stone's own cell is never pre-marked. -/
theorem C6_amended_suicide_reuses_stale_table (g1 : Goban) (row col : Int)
    (tS : Table) (hw1 : WF g1)
    (hsu : suicideTableUsed g1 row col = some tS) :
    (∀ q : Int × Int, MarkedAt tS q → is_valid g1 q.1 q.2 = true ∧
      cellGet g1.board q.1 q.2 ≠ none ∧
      cellGet g1.board q.1 q.2 ≠ cellGet g1.board row col) ∧
    tableGet tS row col = false := by
  unfold suicideTableUsed at hsu
  rcases hcol : cellGet g1.board row col with _ | color
  · rw [hcol] at hsu
    exact absurd hsu (by simp)
  · rw [hcol] at hsu
    dsimp only at hsu
    rcases hscan : scanNeighbors g1 color row col with ⟨oppList, emptyAdj, ocOpt⟩
    rw [hscan] at hsu
    dsimp only at hsu
    by_cases hcond : oppList = [] ∧ emptyAdj = true
    · rw [if_pos hcond] at hsu
      exact absurd hsu (by simp)
    · rw [if_neg hcond] at hsu
      rcases oppList with _ | ⟨op1, oprest⟩
      · dsimp only at hsu
        exact absurd hsu (by simp)
      · rcases ocOpt with _ | oc
        · dsimp only at hsu
          exact absurd hsu (by simp)
        · dsimp only at hsu
          rcases hrun : runRoots g1 oc (op1 :: oprest) [] (freshTable g1) with
            _ | ⟨capL, lastT⟩
          · rw [hrun] at hsu
            dsimp only at hsu
            exact absurd hsu (by simp)
          · rw [hrun] at hsu
            dsimp only at hsu
            by_cases hcne : capL ≠ []
            · rw [if_pos hcne] at hsu
              exact absurd hsu (by simp)
            · rw [if_neg hcne] at hsu
              have htS : lastT = tS := Option.some.inj hsu
              subst htS
              obtain ⟨_, hlastT⟩ := runRoots_spec hw1 oc (op1 :: oprest) []
                (freshTable g1) (capL, lastT) hrun
                (fun p hp => absurd hp (List.not_mem_nil p))
                ⟨freshTable_wf g1, fun q hq => absurd hq (markedAt_fresh g1 q)⟩
              have hoc_eq : oc = otherColor color :=
                (scanNeighbors_spec g1 color row col).2 oc (by rw [hscan])
              have hocne : oc ≠ color := by
                rw [hoc_eq]; exact otherColor_ne color
              refine ⟨?_, ?_⟩
              · intro q hq
                obtain ⟨h1, h2⟩ := hlastT.2 q hq
                refine ⟨h1, by rw [h2]; simp, ?_⟩
                rw [h2]
                intro hcontra
                exact hocne (Option.some.inj hcontra)
              · exact no_mark_at_other_color hcol hocne
                  (fun q hq => (hlastT.2 q hq).2)

/-- Witness for C6's amended claim at the concrete fall-through state of
the counterexample. -/
theorem C6_witness :
    (∀ q : Int × Int, MarkedAt [[false, false, false], [false, false, false],
        [false, true, false]] q →
      is_valid (Goban.mk 3 3
        [[none, none, none],
         [none, none, some Color.white],
         [none, some Color.white, some Color.black]] (some 2) (some 2)) q.1 q.2 = true ∧
      cellGet (Goban.mk 3 3
        [[none, none, none],
         [none, none, some Color.white],
         [none, some Color.white, some Color.black]] (some 2) (some 2)).board q.1 q.2 ≠
        none ∧
      cellGet (Goban.mk 3 3
        [[none, none, none],
         [none, none, some Color.white],
         [none, some Color.white, some Color.black]] (some 2) (some 2)).board q.1 q.2 ≠
        cellGet (Goban.mk 3 3
        [[none, none, none],
         [none, none, some Color.white],
         [none, some Color.white, some Color.black]] (some 2) (some 2)).board 2 2) ∧
    tableGet [[false, false, false], [false, false, false], [false, true, false]] 2 2 =
      false :=
  C6_amended_suicide_reuses_stale_table (Goban.mk 3 3
    [[none, none, none],
     [none, none, some Color.white],
     [none, some Color.white, some Color.black]] (some 2) (some 2)) 2 2
    [[false, false, false], [false, false, false], [false, true, false]]
    (by decide) (by decide)

/-- C7 counterexample: a White group adjacent to the played Black stone
through two distinct neighbors is returned once per adjacent root, so
the captured-stones list of an accepted play contains duplicates. -/
theorem C7_counterexample :
    (go_play (Goban.mk 3 3
      [[some Color.white, some Color.white, some Color.black],
       [some Color.white, none, none],
       [some Color.black, none, none]] none none) Color.black 1 1).1 =
      PlayOutcome.accepted (1, 1) (some Color.white)
        [(0, 1), (0, 0), (1, 0), (1, 0), (0, 0), (0, 1)] ∧
    ¬ ([((0 : Int), (1 : Int)), (0, 0), (1, 0), (1, 0), (0, 0), (0, 1)] :
        List (Int × Int)).Nodup := by decide

/-- C7 amended: within each single root traversal (one opponent-neighbor
group check on its fresh visitation table) the member list contains each
coordinate at most once; the full captured-stones list concatenates one
such list per adjacent opponent root, so a group reachable from several
roots is listed once per root. -/
theorem C7_amended_per_root_no_duplicates (g : Goban) (c : Color) (row col : Int)
    (L : List (Int × Int)) (t2 : Table) (hw : WF g)
    (hrc : recurse_captures g c (FUEL g) row col (freshTable g) = (some L, t2)) :
    L.Nodup :=
  rc_fresh_nodup hw hrc

/-- Witness for C7's amended claim: the first root call of the
counterexample board lists the three-stone White group without
duplicates. -/
theorem C7_witness :
    ([((0 : Int), (1 : Int)), (0, 0), (1, 0)] : List (Int × Int)).Nodup :=
  C7_amended_per_root_no_duplicates (Goban.mk 3 3
      [[some Color.white, some Color.white, some Color.black],
       [some Color.white, some Color.black, none],
       [some Color.black, none, none]] (some 1) (some 1))
    Color.white 0 1 [(0, 1), (0, 0), (1, 0)]
    [[true, true, false], [true, false, false], [false, false, false]]
    (by decide) (by decide)

/-- Witness for C3 at a concrete capture: the White stone captured by
Black's play at (2,1) on the 3×3 board indeed has no liberty. -/
theorem C3_witness :
    ¬ GroupHasLiberty (place (Goban.mk 3 3
      [[none, some Color.black, none],
       [some Color.black, some Color.white, some Color.black],
       [none, none, none]] none none) Color.black 2 1) Color.white (1, 1) :=
  (C3_liberty_group_never_captured (Goban.mk 3 3
      [[none, some Color.black, none],
       [some Color.black, some Color.white, some Color.black],
       [none, none, none]] none none) Color.black 2 1 (2, 1) (some Color.white)
    [(1, 1)]
    (Goban.mk 3 3
      [[none, some Color.black, none],
       [some Color.black, none, some Color.black],
       [none, some Color.black, none]] (some 2) (some 1))
    (by decide) (by decide)).1 (1, 1) (by decide) Color.white (by decide)

/-- When all four orthogonal neighbors are valid opponent stones, the
neighbor scan collects exactly those four roots, finds no adjacent empty
space, and records the opponent color. -/
theorem scan_all_opponents {g : Goban} {color oc : Color} {row col : Int}
    (hocne : oc ≠ color)
    (hnb : ∀ d ∈ SQUARE_DELTAS, is_valid g (row + d.1) (col + d.2) = true ∧
      cellGet g.board (row + d.1) (col + d.2) = some oc) :
    scanNeighbors g color row col =
      ([(row + -1, col + 0), (row + 1, col + 0), (row + 0, col + -1),
        (row + 0, col + 1)], false, some oc) := by
  have h1 := hnb (-1, 0) (by simp [SQUARE_DELTAS])
  have h2 := hnb (1, 0) (by simp [SQUARE_DELTAS])
  have h3 := hnb (0, -1) (by simp [SQUARE_DELTAS])
  have h4 := hnb (0, 1) (by simp [SQUARE_DELTAS])
  have h1a : is_valid g (row + -1) (col + 0) = true := h1.1
  have h1b : cellGet g.board (row + -1) (col + 0) = some oc := h1.2
  have h2a : is_valid g (row + 1) (col + 0) = true := h2.1
  have h2b : cellGet g.board (row + 1) (col + 0) = some oc := h2.2
  have h3a : is_valid g (row + 0) (col + -1) = true := h3.1
  have h3b : cellGet g.board (row + 0) (col + -1) = some oc := h3.2
  have h4a : is_valid g (row + 0) (col + 1) = true := h4.1
  have h4b : cellGet g.board (row + 0) (col + 1) = some oc := h4.2
  unfold scanNeighbors SQUARE_DELTAS
  rw [List.foldl_cons, List.foldl_cons, List.foldl_cons, List.foldl_cons,
    List.foldl_nil]
  simp only [h1a, h1b, h2a, h2b, h3a, h3b, h4a, h4b, hocne, if_true, ne_eq,
    not_false_eq_true, List.nil_append]
  rfl

/-- C5: playing into an empty point whose four orthogonal neighbors all
hold opponent stones, each of whose groups keeps at least one liberty
after the placement, is accepted as a suicide: the reported captured
color is the mover's own, the captured list is the played point itself,
and the point reads empty afterwards. -/
theorem C5_suicide_self_capture (g : Goban) (color oc : Color) (row col : Int)
    (hw : WF g) (hocne : oc ≠ color)
    (hv : is_valid g row col = true)
    (hempty : cellGet g.board row col = none)
    (hnb : ∀ d ∈ SQUARE_DELTAS, is_valid g (row + d.1) (col + d.2) = true ∧
      cellGet g.board (row + d.1) (col + d.2) = some oc)
    (hlib : ∀ d ∈ SQUARE_DELTAS,
      GroupHasLiberty (place g color row col) oc (row + d.1, col + d.2)) :
    (go_play g color row col).1 =
      PlayOutcome.accepted (row, col) (some color) [(row, col)] ∧
    cellGet (go_play g color row col).2.board row col = none := by
  have hw1 : WF (place g color row col) := place_wf hw color row col
  have hcol : cellGet (place g color row col).board row col = some color :=
    cellGet_place_self hw hv color
  -- neighbor cells are untouched by the placement
  have hnb1 : ∀ d ∈ SQUARE_DELTAS,
      is_valid (place g color row col) (row + d.1) (col + d.2) = true ∧
      cellGet (place g color row col).board (row + d.1) (col + d.2) = some oc := by
    intro d hd
    obtain ⟨hvd, hcd⟩ := hnb d hd
    have hn1 := is_valid_nonneg hv
    have hn2 := is_valid_nonneg hvd
    have hne2 : (row + d.1).toNat ≠ row.toNat ∨ (col + d.2).toNat ≠ col.toNat := by
      have hd4 : d = (-1, 0) ∨ d = (1, 0) ∨ d = (0, -1) ∨ d = (0, 1) := by
        simpa [SQUARE_DELTAS] using hd
      rcases hd4 with rfl | rfl | rfl | rfl <;> simp at hn2 ⊢ <;> omega
    refine ⟨hvd, ?_⟩
    rw [cellGet_place_other g color row col (row + d.1) (col + d.2) hne2]
    exact hcd
  have hscan := scan_all_opponents hocne hnb1
  -- each opponent root bails on its liberty
  obtain ⟨ta, hrca⟩ := rc_fresh_bails hw1 ((row + -1, col + 0))
    (hnb1 (-1, 0) (by simp [SQUARE_DELTAS])).1
    (hnb1 (-1, 0) (by simp [SQUARE_DELTAS])).2
    (hlib (-1, 0) (by simp [SQUARE_DELTAS]))
  obtain ⟨tb, hrcb⟩ := rc_fresh_bails hw1 ((row + 1, col + 0))
    (hnb1 (1, 0) (by simp [SQUARE_DELTAS])).1
    (hnb1 (1, 0) (by simp [SQUARE_DELTAS])).2
    (hlib (1, 0) (by simp [SQUARE_DELTAS]))
  obtain ⟨tc, hrcc⟩ := rc_fresh_bails hw1 ((row + 0, col + -1))
    (hnb1 (0, -1) (by simp [SQUARE_DELTAS])).1
    (hnb1 (0, -1) (by simp [SQUARE_DELTAS])).2
    (hlib (0, -1) (by simp [SQUARE_DELTAS]))
  obtain ⟨td, hrcd⟩ := rc_fresh_bails hw1 ((row + 0, col + 1))
    (hnb1 (0, 1) (by simp [SQUARE_DELTAS])).1
    (hnb1 (0, 1) (by simp [SQUARE_DELTAS])).2
    (hlib (0, 1) (by simp [SQUARE_DELTAS]))
  have hrun : runRoots (place g color row col) oc
      [(row + -1, col + 0), (row + 1, col + 0), (row + 0, col + -1),
        (row + 0, col + 1)] [] (freshTable (place g color row col)) =
      some ([], td) := by
    rw [runRoots]
    dsimp only
    rw [hrca]
    dsimp only
    rw [runRoots]
    dsimp only
    rw [hrcb]
    dsimp only
    rw [runRoots]
    dsimp only
    rw [hrcc]
    dsimp only
    rw [runRoots]
    dsimp only
    rw [hrcd]
    dsimp only
    rw [runRoots]
    rfl
  -- the table handed to the suicide check marks only opponent stones
  obtain ⟨_, htd⟩ := runRoots_spec hw1 oc
    [(row + -1, col + 0), (row + 1, col + 0), (row + 0, col + -1), (row + 0, col + 1)]
    [] (freshTable (place g color row col)) ([], td) hrun
    (fun p hp => absurd hp (List.not_mem_nil p))
    ⟨freshTable_wf _, fun q hq => absurd hq (markedAt_fresh _ q)⟩
  have hmarkfalse : tableGet td row col = false :=
    no_mark_at_other_color hcol hocne (fun q hq => (htd.2 q hq).2)
  -- the suicide check finds the lone new stone without liberties
  have hv1 : is_valid (place g color row col) row col = true := hv
  obtain ⟨N2, hN2⟩ : ∃ m,
      (place g color row col).height.toNat * (place g color row col).width.toNat =
        m + 1 := by
    have hb := is_valid_toNat hv1
    have hpos : 0 < (place g color row col).height.toNat *
        (place g color row col).width.toNat :=
      Nat.mul_pos (by omega) (by omega)
    exact ⟨(place g color row col).height.toNat *
      (place g color row col).width.toNat - 1, by omega⟩
  have hfuel : FUEL (place g color row col) = (N2 + 1) + 1 := by
    unfold FUEL
    omega
  have hsub : ∀ d ∈ SQUARE_DELTAS, ∀ t : Table,
      recurse_captures (place g color row col) color (N2 + 1)
        (row + d.1) (col + d.2) t = (none, t) := by
    intro d hd t
    obtain ⟨hvd, hcd⟩ := hnb1 d hd
    exact rc_wrong_color_none hvd (by rw [hcd]; simp)
      (by rw [hcd]; intro hcc; exact hocne (Option.some.inj hcc))
  have hloop : recurse_over
      (recurse_captures (place g color row col) color (N2 + 1)) SQUARE_DELTAS
      row col (gridSet td row col true) =
      (false, [], gridSet td row col true) := by
    unfold SQUARE_DELTAS
    rw [recurse_over]
    rw [hsub (-1, 0) (by simp [SQUARE_DELTAS]) _]
    dsimp only
    rw [recurse_over]
    rw [hsub (1, 0) (by simp [SQUARE_DELTAS]) _]
    dsimp only
    rw [recurse_over]
    rw [hsub (0, -1) (by simp [SQUARE_DELTAS]) _]
    dsimp only
    rw [recurse_over]
    rw [hsub (0, 1) (by simp [SQUARE_DELTAS]) _]
    dsimp only
    rw [recurse_over]
  have hsui : recurse_captures (place g color row col) color
      (FUEL (place g color row col)) row col td =
      (some [(row, col)], gridSet td row col true) := by
    rw [hfuel, recurse_captures]
    rw [if_neg (by rw [hv1]; simp), if_neg (by rw [hmarkfalse]; simp),
      if_neg (by rw [hcol]; simp), if_neg (by rw [hcol]; simp), hloop]
  -- assemble go_find_captures
  have hfc : go_find_captures (place g color row col) row col =
      some (some color, [(row, col)]) := by
    unfold go_find_captures
    rw [hcol]
    dsimp only
    rw [hscan]
    dsimp only
    rw [if_neg (by simp)]
    rw [hrun]
    dsimp only
    rw [if_neg (by simp), hsui]
    dsimp only
    rw [if_pos (by simp)]
  -- assemble go_play
  have hplay : go_play g color row col =
      (PlayOutcome.accepted (row, col) (some color) [(row, col)],
       { place g color row col with
           board := clearStones (place g color row col).board [(row, col)] }) := by
    unfold go_play
    rw [if_neg (by rw [hv]; simp), if_neg (by rw [hempty]; simp), hfc]
  rw [hplay]
  refine ⟨rfl, ?_⟩
  show cellGet (clearStones (place g color row col).board [(row, col)]) row col = none
  have hclear : clearStones (place g color row col).board [(row, col)] =
      gridSet (place g color row col).board row col none := rfl
  rw [hclear]
  have hg : gridGet (place g color row col).board row col = some (some color) := by
    unfold cellGet at hcol
    rcases hgg : gridGet (place g color row col).board row col with _ | y
    · rw [hgg] at hcol
      simp at hcol
    · rw [hgg] at hcol
      simp at hcol
      rw [hcol]
  unfold cellGet
  rw [gridGet_set_self hg]
  rfl

/-- Witness for C5: Black plays into the empty center of a 3×3 board
whose four neighbors are White stones (each with liberties); the move is
a suicide that removes the played stone. -/
theorem C5_witness :
    (go_play (Goban.mk 3 3
      [[none, some Color.white, none],
       [some Color.white, none, some Color.white],
       [none, some Color.white, none]] none none) Color.black 1 1).1 =
      PlayOutcome.accepted (1, 1) (some Color.black) [(1, 1)] ∧
    cellGet (go_play (Goban.mk 3 3
      [[none, some Color.white, none],
       [some Color.white, none, some Color.white],
       [none, some Color.white, none]] none none) Color.black 1 1).2.board 1 1 =
      none :=
  C5_suicide_self_capture (Goban.mk 3 3
      [[none, some Color.white, none],
       [some Color.white, none, some Color.white],
       [none, some Color.white, none]] none none) Color.black Color.white 1 1
    (by decide) (by decide) (by decide) (by decide) (by decide)
    (by
      intro d hd
      have hd4 : d = (-1, 0) ∨ d = (1, 0) ∨ d = (0, -1) ∨ d = (0, 1) := by
        simpa [SQUARE_DELTAS] using hd
      rcases hd4 with rfl | rfl | rfl | rfl
      · exact ⟨((1 : Int) + -1, (1 : Int) + 0), Relation.ReflTransGen.refl,
          (0, -1), by decide, by decide, by decide⟩
      · exact ⟨((1 : Int) + 1, (1 : Int) + 0), Relation.ReflTransGen.refl,
          (0, -1), by decide, by decide, by decide⟩
      · exact ⟨((1 : Int) + 0, (1 : Int) + -1), Relation.ReflTransGen.refl,
          (-1, 0), by decide, by decide, by decide⟩
      · exact ⟨((1 : Int) + 0, (1 : Int) + 1), Relation.ReflTransGen.refl,
          (-1, 0), by decide, by decide, by decide⟩)
